import Mathlib

/-!
Verification of the BSM_pet option-pricing library.

This file gives a shallow embedding of the library's pricing engines and
Greeks estimator, translated from the Python source:

* `instruments.py` — `OptionType`, `ExerciseType`, the contract classes and
  their payoff methods (the base class `Option` is rendered `OptionC`, since
  `Option` is taken by the Lean core library);
* `market.py` — `MarketData`;
* `binomial_engine.py` — `BinomialEngine.calculate`, a backward induction
  over a recombining tree held in a mutable array (here a function
  `Nat → ℝ` updated with `Function.update`, with the sequential inner loop
  rendered as a fold, `BinomialEngine.innerLoop`);
* `numerical_greeks.py` — the finite-difference Greeks, with the wrapped
  engine's `calculate(...)['price']` modelled as a function returning
  `Except Unit ℝ` (`Except.error` standing for a raised exception) and the
  in-place mutation of the contract / market objects made explicit by
  returning the final object state;
* `longstaff_schwartz_engine.py` — the Longstaff–Schwartz engine, with the
  global `np.random.standard_normal` draws passed in as an explicit matrix
  `z` and the external `sklearn.linear_model.LinearRegression` fit/predict
  pair modelled as a parameter `fitPredict` (`none` standing for a raised
  exception caught by the source's bare `except`);
* `monte_carlo_engine.py` — the Monte-Carlo engine, with the numpy global
  random state made explicit.

Python floats are modelled as real numbers.  Where Python raises
`ZeroDivisionError` (`dt = T / steps` with `steps == 0`) the embedding
returns `Except.error ()`; numpy's non-raising float division by zero is
modelled by Lean's total division (`x / 0 = 0`).
-/

noncomputable section

/-- `OptionType` from `instruments.py`. -/
inductive OptionType
  | CALL
  | PUT
deriving DecidableEq

/-- `ExerciseType` from `instruments.py`. -/
inductive ExerciseType
  | EUROPEAN
  | AMERICAN
  | BERMUDAN
  | ASIAN
deriving DecidableEq

/-- The contract classes of `instruments.py`, flattened into one record:
the base class `Option` (renamed `OptionC`: `Option` is taken by Lean core)
with the style-specific fields `exercise_dates` (Bermudan) and
`averaging_dates` (Asian). -/
structure OptionC where
  strike_price : ℝ
  expiration_time : ℝ
  option_type : OptionType
  exercise_type : ExerciseType
  underlying_price : ℝ
  exercise_dates : List ℝ
  averaging_dates : List ℝ

/-- `MarketData` from `market.py`. -/
structure MarketData where
  risk_free_rate : ℝ
  volatility : ℝ
  dividend_yield : ℝ

/-- `Option.payoff` on a scalar spot price (`instruments.py`).  For a scalar
argument `AsianOption.payoff` computes the same expression (the average of a
single number is itself), so this is the payoff used at every scalar call
site of every engine. -/
def OptionC.payoff (o : OptionC) (spot_price : ℝ) : ℝ :=
  match o.option_type with
  | OptionType.CALL => max (spot_price - o.strike_price) 0
  | OptionType.PUT => max (o.strike_price - spot_price) 0

/-- `np.mean` of a list of reals (mean of the empty list is rendered by
Lean's total division as `0 / 0 = 0`; numpy returns NaN there). -/
def listMean (l : List ℝ) : ℝ := l.sum / l.length

/-- `AsianOption.payoff` on a list of spot prices (`instruments.py`):
payoff of the arithmetic mean. -/
def OptionC.payoffAvg (o : OptionC) (spot_prices : List ℝ) : ℝ :=
  match o.option_type with
  | OptionType.CALL => max (listMean spot_prices - o.strike_price) 0
  | OptionType.PUT => max (o.strike_price - listMean spot_prices) 0

/-- The `{'price': ...}` dictionary returned by the lattice and
Longstaff–Schwartz engines. -/
structure PriceResult where
  price : ℝ

namespace BinomialEngine

/-- `dt = T / steps` (`binomial_engine.py`). -/
def dt (o : OptionC) (steps : ℕ) : ℝ := o.expiration_time / steps

/-- `u = np.exp(sigma * np.sqrt(dt))`. -/
def u (o : OptionC) (md : MarketData) (steps : ℕ) : ℝ :=
  Real.exp (md.volatility * Real.sqrt (dt o steps))

/-- `d = 1 / u`. -/
def d (o : OptionC) (md : MarketData) (steps : ℕ) : ℝ := 1 / u o md steps

/-- `p = (np.exp((r - q) * dt) - d) / (u - d)`. -/
def p (o : OptionC) (md : MarketData) (steps : ℕ) : ℝ :=
  (Real.exp ((md.risk_free_rate - md.dividend_yield) * dt o steps) - d o md steps) /
    (u o md steps - d o md steps)

/-- The price at node `(j, i)` of the tree, `S * u**(j - i) * d**i`
(recomputed on demand, as in the source for both the terminal array and the
in-loop `current_asset_price`). -/
def nodePrice (o : OptionC) (md : MarketData) (steps j i : ℕ) : ℝ :=
  o.underlying_price * u o md steps ^ (j - i) * d o md steps ^ i

/-- The terminal array `option_values[i] = option.payoff(asset_prices[i])`. -/
def termVals (o : OptionC) (md : MarketData) (steps : ℕ) : ℕ → ℝ :=
  fun i => o.payoff (nodePrice o md steps steps i)

/-- One node's new value at level `j`, index `i`, reading the current value
array `V`: the loop body of `binomial_engine.py` (continuation value,
exercise value, and the per-style resolution; `ASIAN` matches none of the
source's branches, so the array cell keeps its old value). -/
def nodeVal (o : OptionC) (md : MarketData) (steps j i : ℕ) (V : ℕ → ℝ) : ℝ :=
  let continuation_value :=
    Real.exp (-md.risk_free_rate * dt o steps) * (p o md steps * V i + (1 - p o md steps) * V (i + 1))
  let exercise_value := o.payoff (nodePrice o md steps j i)
  match o.exercise_type with
  | ExerciseType.EUROPEAN => continuation_value
  | ExerciseType.AMERICAN => max exercise_value continuation_value
  | ExerciseType.BERMUDAN =>
      if ∃ date ∈ o.exercise_dates, |(j : ℝ) * dt o steps - date| < dt o steps / 2 then
        max exercise_value continuation_value
      else
        continuation_value
  | ExerciseType.ASIAN => V i

/-- The inner loop `for i in range(j + 1)` after `k` iterations: the array is
updated in place, iteration `i` writing index `i` of the array it also
reads.  `innerLoop j k V` is the array after iterations `0, …, k-1`. -/
def innerLoop (o : OptionC) (md : MarketData) (steps j : ℕ) : ℕ → (ℕ → ℝ) → ℕ → ℝ
  | 0, V => V
  | k + 1, V =>
      Function.update (innerLoop o md steps j k V) k
        (nodeVal o md steps j k (innerLoop o md steps j k V))

/-- The outer loop `for j in range(steps - 1, -1, -1)` after `n` levels:
`backAux 0` is the terminal array, `backAux (n+1)` applies the full inner
loop of level `j = steps - (n+1)` (iterations `0, …, j`). -/
def backAux (o : OptionC) (md : MarketData) (steps : ℕ) : ℕ → ℕ → ℝ
  | 0 => termVals o md steps
  | n + 1 =>
      innerLoop o md steps (steps - (n + 1)) (steps - (n + 1) + 1)
        (backAux o md steps n)

/-- `BinomialEngine.calculate`: runs all `steps` levels of backward
induction and returns `{'price': option_values[0]}`.  With `steps = 0` the
source raises `ZeroDivisionError` at `dt = T / steps`, modelled as
`Except.error ()`. -/
def calculate (o : OptionC) (md : MarketData) (steps : ℕ) : Except Unit PriceResult :=
  if steps = 0 then Except.error ()
  else Except.ok ⟨backAux o md steps steps 0⟩

end BinomialEngine

namespace SpecLattice

/-!  The lattice algorithm as §4.1 of the specification states it, written
as a plain recursion on the tree (no mutable array): used as the
specification side of the refinement claim about `BinomialEngine`. -/

/-- Spec §4.1: per-step time increment. -/
def dtS (o : OptionC) (steps : ℕ) : ℝ := o.expiration_time / steps

/-- Spec §4.1: up factor `exp(σ√Δt)`. -/
def upFactor (o : OptionC) (md : MarketData) (steps : ℕ) : ℝ :=
  Real.exp (md.volatility * Real.sqrt (dtS o steps))

/-- Spec §4.1: down factor `1/u`. -/
def downFactor (o : OptionC) (md : MarketData) (steps : ℕ) : ℝ :=
  1 / upFactor o md steps

/-- Spec §4.1: risk-neutral probability `(exp((r−q)Δt) − d) / (u − d)`. -/
def rnProb (o : OptionC) (md : MarketData) (steps : ℕ) : ℝ :=
  (Real.exp ((md.risk_free_rate - md.dividend_yield) * dtS o steps) - downFactor o md steps) /
    (upFactor o md steps - downFactor o md steps)

/-- Spec §3 (Lattice): the price at node `(step j, down-moves i)`,
`S·u^(j−i)·d^i`. -/
def nodePriceS (o : OptionC) (md : MarketData) (steps j i : ℕ) : ℝ :=
  o.underlying_price * upFactor o md steps ^ (j - i) * downFactor o md steps ^ i

/-- Spec §4.1 as a recursion: `value n i` is the option value at the node
with `n` time indices left to expiration (so at time index `j = steps - n`)
and `i` down-moves.  `value 0` is the terminal payoff; one step back
resolves `continuation = exp(−rΔt)·(p·V_up + (1−p)·V_down)` against the
exercise value by exercise style (EUROPEAN: continuation; AMERICAN: max;
BERMUDAN: max only within half a time step of an exercise date; an ASIAN
style, which §4.1 does not list, keeps the expiring value, matching the
source's fall-through). -/
def value (o : OptionC) (md : MarketData) (steps : ℕ) : ℕ → ℕ → ℝ
  | 0, i => o.payoff (nodePriceS o md steps steps i)
  | n + 1, i =>
      let j := steps - (n + 1)
      let continuation :=
        Real.exp (-md.risk_free_rate * dtS o steps) *
          (rnProb o md steps * value o md steps n i +
            (1 - rnProb o md steps) * value o md steps n (i + 1))
      let exercise := o.payoff (nodePriceS o md steps j i)
      match o.exercise_type with
      | ExerciseType.EUROPEAN => continuation
      | ExerciseType.AMERICAN => max exercise continuation
      | ExerciseType.BERMUDAN =>
          if ∃ date ∈ o.exercise_dates, |(j : ℝ) * dtS o steps - date| < dtS o steps / 2 then
            max exercise continuation
          else
            continuation
      | ExerciseType.ASIAN => value o md steps n i

/-- Spec §4.1: "the value at the root node is the price". -/
def rootPrice (o : OptionC) (md : MarketData) (steps : ℕ) : ℝ :=
  value o md steps steps 0

end SpecLattice

namespace BinomialEngine

/-- `nodeVal` reads the value array only at indices `i` and `i + 1`. -/
lemma nodeVal_congr (o : OptionC) (md : MarketData) (steps j i : ℕ) (V W : ℕ → ℝ)
    (h1 : V i = W i) (h2 : V (i + 1) = W (i + 1)) :
    nodeVal o md steps j i V = nodeVal o md steps j i W := by
  simp only [nodeVal, h1, h2]

/-- The in-place inner loop is a pointwise update: after `k` iterations,
index `m` holds the new node value when `m < k` and the old array value
otherwise (iteration `i` writes index `i` after reading indices `i` and
`i + 1`, which are still unwritten at that point). -/
lemma innerLoop_apply (o : OptionC) (md : MarketData) (steps j : ℕ) (V : ℕ → ℝ) :
    ∀ k m, innerLoop o md steps j k V m =
      if m < k then nodeVal o md steps j m V else V m := by
  intro k
  induction k with
  | zero => intro m; simp [innerLoop]
  | succ k ih =>
    intro m
    by_cases hm : m = k
    · subst hm
      have hk : nodeVal o md steps j m (innerLoop o md steps j m V) =
          nodeVal o md steps j m V := by
        apply nodeVal_congr
        · rw [ih m]; simp
        · rw [ih (m + 1)]; simp
      simp [innerLoop, hk, Nat.lt_succ_self]
    · simp only [innerLoop]
      rw [Function.update_noteq hm, ih m]
      by_cases h : m < k
      · simp [h, Nat.lt_succ_of_lt h]
      · have h' : ¬m < k + 1 := by omega
        simp [h, h']

/-- Refinement of the array program onto the specification recursion: after
`n` backward levels, every in-range cell of the value array holds the
corresponding `SpecLattice.value`. -/
lemma backAux_eq_value (o : OptionC) (md : MarketData) (steps : ℕ) :
    ∀ n, n ≤ steps → ∀ i, i ≤ steps - n →
      backAux o md steps n i = SpecLattice.value o md steps n i := by
  intro n
  induction n with
  | zero => intro _ i _; rfl
  | succ n ih =>
    intro hn i hi
    have hi' : i < steps - (n + 1) + 1 := by omega
    show innerLoop o md steps (steps - (n + 1)) (steps - (n + 1) + 1)
        (backAux o md steps n) i = _
    rw [innerLoop_apply, if_pos hi']
    have e1 : backAux o md steps n i = SpecLattice.value o md steps n i :=
      ih (by omega) i (by omega)
    have e2 : backAux o md steps n (i + 1) = SpecLattice.value o md steps n (i + 1) :=
      ih (by omega) (i + 1) (by omega)
    show nodeVal o md steps (steps - (n + 1)) i (backAux o md steps n) = _
    simp only [nodeVal, SpecLattice.value, e1, e2]
    rfl

end BinomialEngine

/-- C4: the lattice engine computes `u = exp(σ√Δt)`, `d = 1/u`,
`p = (exp((r−q)Δt) − d)/(u − d)`, initializes terminal values as the payoff
at each terminal node price `S·u^(steps−i)·d^i`, steps backward with
`continuation = exp(−rΔt)·(p·V_up + (1−p)·V_down)`, resolves each node by
exercise style (continuation for EUROPEAN, `max(exercise, continuation)` for
AMERICAN, and for BERMUDAN the max only within half a time step of an
exercise date), and returns the root value: `BinomialEngine.calculate`
refines the specification recursion `SpecLattice.rootPrice`, which is
defined by exactly those formulas. -/
theorem binomial_calculate_refines_spec_lattice (o : OptionC) (md : MarketData)
    (steps : ℕ) (h : steps ≠ 0) :
    BinomialEngine.calculate o md steps = Except.ok ⟨SpecLattice.rootPrice o md steps⟩ := by
  have hroot := BinomialEngine.backAux_eq_value o md steps steps le_rfl 0 (by omega)
  rw [BinomialEngine.calculate, if_neg h, SpecLattice.rootPrice, ← hroot]

namespace NumericalGreeks

/-- The wrapped engine's `self.engine.calculate(option, market_data)['price']`:
a pricing call that either returns a price or raises (`Except.error`). -/
def Engine : Type := OptionC → MarketData → Except Unit ℝ

/-- `NumericalGreeks.calculate_delta`: bumps `option.underlying_price` in
place to `S·(1+h)` and `S·(1−h)`, re-invokes the engine, and writes the
original price back only on the straight-line path.  The returned pair is
(result, final state of the mutated `option` object); when a pricing call
raises, execution leaves the function with the bump still applied. -/
def calculate_delta (engine : Engine) (h : ℝ) (o : OptionC) (md : MarketData) :
    Except Unit ℝ × OptionC :=
  let original_price := o.underlying_price
  let o1 := { o with underlying_price := original_price * (1 + h) }
  match engine o1 md with
  | Except.error e => (Except.error e, o1)
  | Except.ok price_up =>
    let o2 := { o1 with underlying_price := original_price * (1 - h) }
    match engine o2 md with
    | Except.error e => (Except.error e, o2)
    | Except.ok price_down =>
      let o3 := { o2 with underlying_price := original_price }
      (Except.ok ((price_up - price_down) / (2 * original_price * h)), o3)

/-- `NumericalGreeks.calculate_gamma` (same mutate-and-restore discipline as
`calculate_delta`, with an extra unperturbed pricing call first). -/
def calculate_gamma (engine : Engine) (h : ℝ) (o : OptionC) (md : MarketData) :
    Except Unit ℝ × OptionC :=
  let original_price := o.underlying_price
  match engine o md with
  | Except.error e => (Except.error e, o)
  | Except.ok price_original =>
    let o1 := { o with underlying_price := original_price * (1 + h) }
    match engine o1 md with
    | Except.error e => (Except.error e, o1)
    | Except.ok price_up =>
      let o2 := { o1 with underlying_price := original_price * (1 - h) }
      match engine o2 md with
      | Except.error e => (Except.error e, o2)
      | Except.ok price_down =>
        let o3 := { o2 with underlying_price := original_price }
        (Except.ok ((price_up - 2 * price_original + price_down) /
          (original_price * h) ^ 2), o3)

/-- `NumericalGreeks.calculate_theta`: a fixed one-day bump
`one_day = 1/365` of `option.expiration_time` (the configured step size `h`
is not consulted), priced one-sided; the original time is written back
before the second (unperturbed) pricing call. -/
def calculate_theta (engine : Engine) (h : ℝ) (o : OptionC) (md : MarketData) :
    Except Unit ℝ × OptionC :=
  let original_time := o.expiration_time
  let one_day : ℝ := 1 / 365
  let o1 := { o with expiration_time := original_time - one_day }
  match engine o1 md with
  | Except.error e => (Except.error e, o1)
  | Except.ok price_time_dec =>
    let o2 := { o1 with expiration_time := original_time }
    match engine o2 md with
    | Except.error e => (Except.error e, o2)
    | Except.ok price_original =>
      (Except.ok ((price_time_dec - price_original) / one_day), o2)

/-- `NumericalGreeks.calculate_vega`: bumps `market_data.volatility` in
place, prices up and down, restores, then makes one more (unused) pricing
call at the restored volatility.  Returns (result, final `market_data`). -/
def calculate_vega (engine : Engine) (h : ℝ) (o : OptionC) (md : MarketData) :
    Except Unit ℝ × MarketData :=
  let original_vol := md.volatility
  let md1 := { md with volatility := original_vol * (1 + h) }
  match engine o md1 with
  | Except.error e => (Except.error e, md1)
  | Except.ok price_vol_up =>
    let md2 := { md1 with volatility := original_vol * (1 - h) }
    match engine o md2 with
    | Except.error e => (Except.error e, md2)
    | Except.ok price_vol_down =>
      let md3 := { md2 with volatility := original_vol }
      match engine o md3 with
      | Except.error e => (Except.error e, md3)
      | Except.ok _price_original =>
        (Except.ok ((price_vol_up - price_vol_down) / (2 * original_vol * h * 100)), md3)

/-- `NumericalGreeks.calculate_rho`: bumps `market_data.risk_free_rate` in
place, prices up and down, restores.  Returns (result, final `market_data`). -/
def calculate_rho (engine : Engine) (h : ℝ) (o : OptionC) (md : MarketData) :
    Except Unit ℝ × MarketData :=
  let original_rate := md.risk_free_rate
  let md1 := { md with risk_free_rate := original_rate * (1 + h) }
  match engine o md1 with
  | Except.error e => (Except.error e, md1)
  | Except.ok price_rate_up =>
    let md2 := { md1 with risk_free_rate := original_rate * (1 - h) }
    match engine o md2 with
    | Except.error e => (Except.error e, md2)
    | Except.ok price_rate_down =>
      let md3 := { md2 with risk_free_rate := original_rate }
      (Except.ok ((price_rate_up - price_rate_down) / (2 * original_rate * h * 100)), md3)

end NumericalGreeks

/-- An engine whose pricing call always raises, as `BinomialEngine.calculate`
does (via `ZeroDivisionError`) when configured with `steps = 0`. -/
def raisingEngine : NumericalGreeks.Engine := fun _ _ => Except.error ()

/-- An engine whose pricing call always returns normally. -/
def totalEngine : NumericalGreeks.Engine := fun _ _ => Except.ok 0

/-- The contract used as the concrete failing input for the Greeks claims. -/
def greeksOpt : OptionC :=
  ⟨100, 1, OptionType.CALL, ExerciseType.EUROPEAN, 100, [], []⟩

/-- The market snapshot used alongside `greeksOpt`. -/
def greeksMd : MarketData := ⟨1 / 20, 1 / 5, 0⟩

/-- C2: refuted on the code — the Greeks estimator has no `try/finally`, so
when the wrapped engine's pricing call raises, the perturbed field is NOT
restored.  Concretely, with an engine whose pricing call raises,
`calculate_delta` exits with `underlying_price` still at `S·(1+h)` (and
`calculate_vega` with `volatility` still at `σ·(1+h)`); only on the
non-raising path is the field written back. -/
theorem greeks_perturbation_not_restored_on_raise :
    (NumericalGreeks.calculate_delta raisingEngine (1 / 1000) greeksOpt greeksMd).2.underlying_price
        = 100 * (1 + 1 / 1000)
    ∧ (NumericalGreeks.calculate_delta raisingEngine (1 / 1000) greeksOpt greeksMd).2.underlying_price
        ≠ greeksOpt.underlying_price
    ∧ (NumericalGreeks.calculate_delta totalEngine (1 / 1000) greeksOpt greeksMd).2.underlying_price
        = greeksOpt.underlying_price
    ∧ (NumericalGreeks.calculate_vega raisingEngine (1 / 1000) greeksOpt greeksMd).2.volatility
        = (1 / 5) * (1 + 1 / 1000)
    ∧ (NumericalGreeks.calculate_vega totalEngine (1 / 1000) greeksOpt greeksMd).2.volatility
        = greeksMd.volatility := by
  refine ⟨?_, ?_, ?_, ?_, ?_⟩ <;>
    norm_num [NumericalGreeks.calculate_delta, NumericalGreeks.calculate_vega,
      raisingEngine, totalEngine, greeksOpt, greeksMd]

/-- C9: `calculate_theta` uses a fixed one-day bump of exactly `1/365`
regardless of the configured step size `h` (first and last conjuncts: the
result does not depend on `h`, and the engine is only consulted at the
bumped and the original expiration), and applies it unguarded: for a
contract with `expiration_time ≤ 1/365` the wrapped engine is invoked with
the non-positive expiration `T − 1/365`, at which the lattice engine's time
step is non-positive, its `sqrt` evaluates to zero, and
`BinomialEngine.calculate` still returns a price rather than raising a
precondition error. -/
theorem theta_fixed_one_day_bump_unguarded (e e' : NumericalGreeks.Engine)
    (h h' : ℝ) (o : OptionC) (md : MarketData) (steps : ℕ)
    (hT : o.expiration_time ≤ 1 / 365) (hs : steps ≠ 0) :
    NumericalGreeks.calculate_theta e h o md = NumericalGreeks.calculate_theta e h' o md
    ∧ ({ o with expiration_time := o.expiration_time - 1 / 365 } : OptionC).expiration_time ≤ 0
    ∧ BinomialEngine.dt { o with expiration_time := o.expiration_time - 1 / 365 } steps ≤ 0
    ∧ Real.sqrt (BinomialEngine.dt { o with expiration_time := o.expiration_time - 1 / 365 } steps) = 0
    ∧ (∃ res, BinomialEngine.calculate { o with expiration_time := o.expiration_time - 1 / 365 } md steps
        = Except.ok res)
    ∧ (e { o with expiration_time := o.expiration_time - 1 / 365 } md
          = e' { o with expiration_time := o.expiration_time - 1 / 365 } md →
        e o md = e' o md →
        NumericalGreeks.calculate_theta e h o md = NumericalGreeks.calculate_theta e' h' o md) := by
  have hdt : BinomialEngine.dt { o with expiration_time := o.expiration_time - 1 / 365 } steps ≤ 0 := by
    rw [BinomialEngine.dt]
    apply div_nonpos_of_nonpos_of_nonneg
    · simp only []
      linarith
    · exact Nat.cast_nonneg steps
  refine ⟨rfl, by simp only []; linarith, hdt, Real.sqrt_eq_zero'.mpr hdt, ?_, ?_⟩
  · rw [BinomialEngine.calculate, if_neg hs]
    exact ⟨_, rfl⟩
  · intro h1 h2
    simp only [NumericalGreeks.calculate_theta]
    rw [h1]
    have eta : ({ { o with expiration_time := o.expiration_time - 1 / 365 } with
        expiration_time := o.expiration_time } : OptionC) = o := rfl
    rw [eta, h2]

/-- Contract with one day to expiration, used as the concrete input of the
theta-claim witness. -/
def thetaWitOpt : OptionC := ⟨1, 1 / 365, OptionType.CALL, ExerciseType.EUROPEAN, 1, [], []⟩

/-- Witness for the theta claim at `T = 1/365`, `steps = 1`. -/
theorem theta_fixed_one_day_bump_unguarded_witness :
    thetaWitOpt.expiration_time ≤ 1 / 365
    ∧ Real.sqrt (BinomialEngine.dt
        { thetaWitOpt with expiration_time := thetaWitOpt.expiration_time - 1 / 365 } 1) = 0 :=
  ⟨le_refl _,
    (theta_fixed_one_day_bump_unguarded totalEngine totalEngine 0 1 thetaWitOpt greeksMd 1
      (le_refl _) one_ne_zero).2.2.2.1⟩

/-- Market snapshot with (invalid) zero volatility. -/
def degenMd : MarketData := ⟨1 / 20, 0, 0⟩

/-- C3: refuted on the code — no engine validates its input.  With zero
volatility (an invalid input that makes `u == d`, a degenerate lattice),
`BinomialEngine.calculate` does not report a precondition violation: it
computes `u = d = 1` and still returns a result (in the numpy source, the
division `(exp((r−q)dt) − d)/(u − d)` by zero silently yields a non-finite
`p` and a NaN price).  With `step_count = 0` the source fails only by an
uncaught `ZeroDivisionError` at `dt = T / steps`, mid-computation, not by an
explicit precondition check. -/
theorem binomial_no_input_validation :
    BinomialEngine.u greeksOpt degenMd 100 = BinomialEngine.d greeksOpt degenMd 100
    ∧ (∃ res, BinomialEngine.calculate greeksOpt degenMd 100 = Except.ok res)
    ∧ BinomialEngine.calculate greeksOpt degenMd 0 = Except.error () := by
  refine ⟨?_, ?_, ?_⟩
  · simp [BinomialEngine.u, BinomialEngine.d, degenMd]
  · rw [BinomialEngine.calculate, if_neg (by norm_num)]
    exact ⟨_, rfl⟩
  · rw [BinomialEngine.calculate, if_pos rfl]

namespace LongstaffSchwartzEngine

/-- `dt = T / time_steps` (`longstaff_schwartz_engine.py`). -/
def dtL (o : OptionC) (time_steps : ℕ) : ℝ := o.expiration_time / time_steps

/-- The simulated asset paths
`asset_paths[:, t] = asset_paths[:, t-1] * exp((r - q - 0.5 σ²) dt + σ √dt z[:, t-1])`,
with `asset_paths[:, 0] = S`.  The source draws `z` from the global numpy
generator; here the draw matrix is an explicit argument. -/
def assetPath (o : OptionC) (md : MarketData) (time_steps : ℕ) (z : ℕ → ℕ → ℝ)
    (i : ℕ) : ℕ → ℝ
  | 0 => o.underlying_price
  | t + 1 =>
      assetPath o md time_steps z i t *
        Real.exp
          ((md.risk_free_rate - md.dividend_yield - 0.5 * md.volatility ^ 2) * dtL o time_steps +
            md.volatility * Real.sqrt (dtL o time_steps) * z i t)

/-- The initial cash-flow matrix: zeros except the terminal column, which
holds `np.maximum(±(asset_paths[:, -1] − K), 0)` by option side. -/
def initialCashFlows (o : OptionC) (md : MarketData) (time_steps : ℕ) (z : ℕ → ℕ → ℝ) :
    ℕ → ℕ → ℝ :=
  fun i t =>
    if t = time_steps then
      match o.option_type with
      | OptionType.CALL => max (assetPath o md time_steps z i time_steps - o.strike_price) 0
      | OptionType.PUT => max (o.strike_price - assetPath o md time_steps z i time_steps) 0
    else 0

/-- The in-the-money mask at time `t`:
`asset_paths[:, t] > K` for a CALL, `< K` for a PUT. -/
def inTheMoney (o : OptionC) (md : MarketData) (time_steps : ℕ) (z : ℕ → ℕ → ℝ)
    (i t : ℕ) : Bool :=
  match o.option_type with
  | OptionType.CALL => decide (assetPath o md time_steps z i t > o.strike_price)
  | OptionType.PUT => decide (assetPath o md time_steps z i t < o.strike_price)

/-- One backward-induction step of `LongstaffSchwartzEngine.calculate` at
time index `t`.  The external `LinearRegression().fit(Xs, Y)` /
`model.predict(Xs)` pair is the parameter `fitPredict`, handed the feature
rows `[S, S²]` of the in-the-money paths and the regression target; `none`
models an exception caught by the source's bare `except` (skip).  When the
fit succeeds the source writes, for every in-the-money path,
`cash_flows[i, t] = exercise_value if exercise else 0.0` and
`cash_flows[i, t+1:] = 0.0` — the future-zeroing is applied to all
in-the-money paths, exercising or not. -/
def step (o : OptionC) (md : MarketData) (num_simulations time_steps : ℕ)
    (z : ℕ → ℕ → ℝ) (fitPredict : List (ℝ × ℝ) → List ℝ → Option (List ℝ))
    (t : ℕ) (cash : ℕ → ℕ → ℝ) : ℕ → ℕ → ℝ :=
  let itmIdx := (List.range num_simulations).filter
    (fun i => inTheMoney o md time_steps z i t)
  if itmIdx = [] then cash
  else
    let discounted_cash_flows := fun i =>
      Real.exp (-md.risk_free_rate * dtL o time_steps) * cash i (t + 1)
    let current_prices := itmIdx.map (fun i => assetPath o md time_steps z i t)
    let Xs := current_prices.map (fun x => (x, x * x))
    let Y := itmIdx.map (fun i => discounted_cash_flows i)
    if Y.length < 3 then cash
    else
      match fitPredict Xs Y with
      | none => cash
      | some continuation_values =>
          fun i t' =>
            if i ∈ itmIdx then
              if t' = t then
                let exercise_value := o.payoff (assetPath o md time_steps z i t)
                if exercise_value > continuation_values.getD (itmIdx.indexOf i) 0 then
                  exercise_value
                else 0
              else if t < t' then 0 else cash i t'
            else cash i t'

/-- The backward loop `for t in range(time_steps - 1, 0, -1)` after `k`
iterations: iteration `k + 1` processes time index `time_steps - (k + 1)`. -/
def backFlows (o : OptionC) (md : MarketData) (num_simulations time_steps : ℕ)
    (z : ℕ → ℕ → ℝ) (fitPredict : List (ℝ × ℝ) → List ℝ → Option (List ℝ)) :
    ℕ → ℕ → ℕ → ℝ
  | 0 => initialCashFlows o md time_steps z
  | k + 1 =>
      step o md num_simulations time_steps z fitPredict (time_steps - (k + 1))
        (backFlows o md num_simulations time_steps z fitPredict k)

/-- The cash-flow matrix after the full backward induction
(`time_steps - 1` steps, down to and including `t = 1`). -/
def cashFlowsFinal (o : OptionC) (md : MarketData) (num_simulations time_steps : ℕ)
    (z : ℕ → ℕ → ℝ) (fitPredict : List (ℝ × ℝ) → List ℝ → Option (List ℝ)) :
    ℕ → ℕ → ℝ :=
  backFlows o md num_simulations time_steps z fitPredict (time_steps - 1)

/-- `price = np.mean(np.sum(cash_flows * exp(-r dt t), axis=1))`. -/
def price (o : OptionC) (md : MarketData) (num_simulations time_steps : ℕ)
    (z : ℕ → ℕ → ℝ) (fitPredict : List (ℝ × ℝ) → List ℝ → Option (List ℝ)) : ℝ :=
  listMean ((List.range num_simulations).map (fun i =>
    ((List.range (time_steps + 1)).map (fun t =>
      cashFlowsFinal o md num_simulations time_steps z fitPredict i t *
        Real.exp (-md.risk_free_rate * dtL o time_steps * t))).sum))

/-- `LongstaffSchwartzEngine.calculate` (with `time_steps = 0` the source
raises `ZeroDivisionError` at `dt = T / time_steps`). -/
def calculate (o : OptionC) (md : MarketData) (num_simulations time_steps : ℕ)
    (z : ℕ → ℕ → ℝ) (fitPredict : List (ℝ × ℝ) → List ℝ → Option (List ℝ)) :
    Except Unit PriceResult :=
  if time_steps = 0 then Except.error ()
  else Except.ok ⟨price o md num_simulations time_steps z fitPredict⟩

end LongstaffSchwartzEngine

/-- Market for the Longstaff–Schwartz instance: `r = 1/2`, `σ = 1`, `q = 0`
(so the per-step drift `(r − q − σ²/2)·dt` vanishes and each step multiplies
the path by `exp(z)`). -/
def lsmMd : MarketData := ⟨1 / 2, 1, 0⟩

/-- At-the-money American put used as the concrete Longstaff–Schwartz
instance: `K = 1`, `T = 2`, `S = 1`. -/
def lsm2Opt : OptionC := ⟨1, 2, OptionType.PUT, ExerciseType.AMERICAN, 1, [], []⟩

/-- The per-path price multipliers of the instance: four distinct values
below the strike. -/
def lsm2X : ℕ → ℝ :=
  fun i =>
    if i = 0 then 9 / 10
    else if i = 1 then 1 / 2
    else if i = 2 then 3 / 5
    else if i = 3 then 2 / 5
    else 1

/-- Concrete standard-normal draws for 4 paths and 2 time steps: every draw
of path `i` is `log (lsm2X i)`, so (the drift vanishing under `lsmMd`) path
`i` moves `1 → lsm2X i → (lsm2X i)²`. -/
def lsm2Z : ℕ → ℕ → ℝ := fun i _ => Real.log (lsm2X i)

/-- The outcome of the quadratic least-squares fit on this instance's
regression data.  The four regression points `(xᵢ, yᵢ)` with `xᵢ = lsm2X i`
and `yᵢ = e^{−rΔt}·(K − xᵢ²)` lie exactly on the single quadratic
`y = e^{−1/2}·(1 − x²)` (lemma `Lsm2Instance.fit_zero_residual`, restated in
the claim theorems), so the least-squares problem over quadratics with
intercept attains residual zero, and every minimizer — in particular
sklearn's `LinearRegression` — predicts the targets themselves at the
sample points (the abscissae are distinct, so the zero-residual
coefficients are even unique).  The fit outcome on this data is therefore
exactly: predict the targets. -/
def lsm2Fit : List (ℝ × ℝ) → List ℝ → Option (List ℝ) := fun _ ys => some ys

namespace ExpBounds

lemma exp_one_lt_three : Real.exp 1 < 3 := by
  have h := Real.exp_one_lt_d9
  linarith

lemma exp_half_mul : Real.exp (1 / 2 : ℝ) * Real.exp (1 / 2 : ℝ) = Real.exp 1 := by
  rw [← Real.exp_add]
  norm_num

lemma exp_half_lt : Real.exp (1 / 2 : ℝ) < 19 / 10 := by
  have h1 := exp_half_mul
  have h2 := Real.exp_one_lt_d9
  have h3 := Real.exp_pos (1 / 2 : ℝ)
  nlinarith

end ExpBounds

namespace Lsm2Instance

open LongstaffSchwartzEngine

lemma lsm2_dt : dtL lsm2Opt 2 = 1 := by
  norm_num [dtL, lsm2Opt]

lemma x_pos : ∀ i, 0 < lsm2X i := by
  intro i
  rw [lsm2X]
  split_ifs <;> norm_num

lemma drift_zero :
    (lsmMd.risk_free_rate - lsmMd.dividend_yield - 0.5 * lsmMd.volatility ^ 2) *
      dtL lsm2Opt 2 = 0 := by
  rw [lsm2_dt]
  norm_num [lsmMd]

lemma path_t1 (i : ℕ) : assetPath lsm2Opt lsmMd 2 lsm2Z i 1 = lsm2X i := by
  simp only [assetPath, drift_zero, lsm2_dt]
  norm_num [lsm2Opt, lsmMd, lsm2Z, Real.sqrt_one, Real.exp_log (x_pos i)]

lemma path_t2 (i : ℕ) : assetPath lsm2Opt lsmMd 2 lsm2Z i 2 = lsm2X i * lsm2X i := by
  show assetPath lsm2Opt lsmMd 2 lsm2Z i (1 + 1) = lsm2X i * lsm2X i
  simp only [assetPath, drift_zero, lsm2_dt]
  norm_num [lsm2Opt, lsmMd, lsm2Z, Real.sqrt_one, Real.exp_log (x_pos i)]

lemma itm (i : ℕ) (hx : lsm2X i < 1) : inTheMoney lsm2Opt lsmMd 2 lsm2Z i 1 = true := by
  rw [show inTheMoney lsm2Opt lsmMd 2 lsm2Z i 1
      = decide (assetPath lsm2Opt lsmMd 2 lsm2Z i 1 < lsm2Opt.strike_price) from rfl]
  rw [path_t1 i, decide_eq_true_iff]
  rw [show lsm2Opt.strike_price = 1 from rfl]
  exact hx

lemma itmList2 :
    (List.range 4).filter (fun i => inTheMoney lsm2Opt lsmMd 2 lsm2Z i 1) = [0, 1, 2, 3] := by
  rw [show List.range 4 = [0, 1, 2, 3] from rfl]
  simp [List.filter, itm 0 (by norm_num [lsm2X]), itm 1 (by norm_num [lsm2X]),
    itm 2 (by norm_num [lsm2X]), itm 3 (by norm_num [lsm2X])]

lemma cash_term (i : ℕ) (hx : lsm2X i ≤ 1) :
    initialCashFlows lsm2Opt lsmMd 2 lsm2Z i 2 = 1 - lsm2X i * lsm2X i := by
  rw [show initialCashFlows lsm2Opt lsmMd 2 lsm2Z i 2
      = max (lsm2Opt.strike_price - assetPath lsm2Opt lsmMd 2 lsm2Z i 2) 0 from rfl]
  rw [path_t2 i, show lsm2Opt.strike_price = 1 from rfl]
  have hx0 := x_pos i
  exact max_eq_left (by nlinarith)

lemma cash2_0 : initialCashFlows lsm2Opt lsmMd 2 lsm2Z 0 2 = 19 / 100 := by
  rw [cash_term 0 (by norm_num [lsm2X])]
  norm_num [lsm2X]

lemma disc2 : Real.exp (-lsmMd.risk_free_rate * dtL lsm2Opt 2) = Real.exp (-(1 / 2)) := by
  rw [lsm2_dt]
  norm_num [lsmMd]

/-- The regression data of the `t = 1` step lies exactly on one quadratic
with intercept: the least-squares fit of spec §4.3c attains zero residual
on it, so every minimizer predicts the targets themselves (the behavior of
`lsm2Fit`). -/
lemma fit_zero_residual :
    ∃ a b c : ℝ, ∀ i, i < 4 →
      a + b * assetPath lsm2Opt lsmMd 2 lsm2Z i 1 +
          c * (assetPath lsm2Opt lsmMd 2 lsm2Z i 1 * assetPath lsm2Opt lsmMd 2 lsm2Z i 1)
        = Real.exp (-lsmMd.risk_free_rate * dtL lsm2Opt 2) *
            initialCashFlows lsm2Opt lsmMd 2 lsm2Z i 2 := by
  refine ⟨Real.exp (-(1 / 2)), 0, -Real.exp (-(1 / 2)), ?_⟩
  intro i hi
  have hx : lsm2X i ≤ 1 := by
    interval_cases i <;> norm_num [lsm2X]
  rw [path_t1 i, disc2, cash_term i hx]
  ring

lemma step2_eval_fun :
    step lsm2Opt lsmMd 4 2 lsm2Z lsm2Fit 1 (initialCashFlows lsm2Opt lsmMd 2 lsm2Z)
      = fun i t' =>
        if i ∈ [0, 1, 2, 3] then
          if t' = 1 then
            if OptionC.payoff lsm2Opt (assetPath lsm2Opt lsmMd 2 lsm2Z i 1) >
                (([0, 1, 2, 3] : List ℕ).map (fun j =>
                    Real.exp (-lsmMd.risk_free_rate * dtL lsm2Opt 2) *
                      initialCashFlows lsm2Opt lsmMd 2 lsm2Z j (1 + 1))).getD
                  (([0, 1, 2, 3] : List ℕ).indexOf i) 0 then
              OptionC.payoff lsm2Opt (assetPath lsm2Opt lsmMd 2 lsm2Z i 1)
            else 0
          else if 1 < t' then 0 else initialCashFlows lsm2Opt lsmMd 2 lsm2Z i t'
        else initialCashFlows lsm2Opt lsmMd 2 lsm2Z i t' := by
  simp only [step, itmList2, lsm2Fit]
  rw [if_neg (by decide : ¬([0, 1, 2, 3] : List ℕ) = [])]
  rw [if_neg (by simp : ¬((([0, 1, 2, 3] : List ℕ).map fun i =>
    Real.exp (-lsmMd.risk_free_rate * dtL lsm2Opt 2) *
      initialCashFlows lsm2Opt lsmMd 2 lsm2Z i (1 + 1)).length < 3))]

lemma nonexercise_0 :
    ¬ ((1 : ℝ) / 10 > Real.exp (-(1 / 2)) * (19 / 100)) := by
  rw [not_lt, Real.exp_neg]
  have h1 := ExpBounds.exp_half_lt
  have h2 := Real.exp_pos (1 / 2 : ℝ)
  have h3 : Real.exp (1 / 2 : ℝ) * (Real.exp (1 / 2 : ℝ))⁻¹ = 1 :=
    mul_inv_cancel₀ (ne_of_gt h2)
  nlinarith [inv_pos.mpr h2]

lemma step2_0_2 :
    step lsm2Opt lsmMd 4 2 lsm2Z lsm2Fit 1 (initialCashFlows lsm2Opt lsmMd 2 lsm2Z) 0 2 = 0 := by
  rw [step2_eval_fun]
  norm_num

lemma step2_0_0 :
    step lsm2Opt lsmMd 4 2 lsm2Z lsm2Fit 1 (initialCashFlows lsm2Opt lsmMd 2 lsm2Z) 0 0 = 0 := by
  rw [step2_eval_fun]
  norm_num [initialCashFlows]

lemma step2_0_1 :
    step lsm2Opt lsmMd 4 2 lsm2Z lsm2Fit 1 (initialCashFlows lsm2Opt lsmMd 2 lsm2Z) 0 1 = 0 := by
  rw [step2_eval_fun]
  simp only [List.mem_cons, List.mem_singleton]
  rw [if_pos (by norm_num), if_pos trivial]
  rw [show (([0, 1, 2, 3] : List ℕ).map (fun j =>
      Real.exp (-lsmMd.risk_free_rate * dtL lsm2Opt 2) *
        initialCashFlows lsm2Opt lsmMd 2 lsm2Z j (1 + 1))).getD
      (([0, 1, 2, 3] : List ℕ).indexOf 0) 0
    = Real.exp (-lsmMd.risk_free_rate * dtL lsm2Opt 2) *
        initialCashFlows lsm2Opt lsmMd 2 lsm2Z 0 (1 + 1) from rfl]
  rw [disc2, show initialCashFlows lsm2Opt lsmMd 2 lsm2Z 0 (1 + 1) = 19 / 100 from cash2_0]
  rw [path_t1 0, show OptionC.payoff lsm2Opt (lsm2X 0) = 1 / 10 from by
    norm_num [OptionC.payoff, lsm2Opt, lsm2X]]
  rw [if_neg nonexercise_0]

lemma final2_eq :
    cashFlowsFinal lsm2Opt lsmMd 4 2 lsm2Z lsm2Fit
      = step lsm2Opt lsmMd 4 2 lsm2Z lsm2Fit 1 (initialCashFlows lsm2Opt lsmMd 2 lsm2Z) := rfl

end Lsm2Instance

/-- C1: refuted on the code — at a 4-path, 2-step instance (`lsm2Opt`,
`lsmMd`, draws `lsm2Z`) the four regression points of the `t = 1` step lie
exactly on one quadratic (first conjunct), so the quadratic least-squares
fit of §4.3c attains zero residual and its predictions ARE the targets —
the outcome modelled by `lsm2Fit`.  Under that fit, path 0 is in the money
(price `9/10 < 1`) and treated as non-exercising (exercise value `1/10`
does not strictly exceed its fitted continuation `e^{−1/2}·19/100 ≈ 0.115`),
yet the step does not leave its row of the cash-flow matrix unchanged: the
unconditional `cash_flows[in_the_money, t+1:] = 0.0` wipes its terminal
cash flow `19/100` to `0` (and writes `0` at `t`), leaving the whole row
zero. -/
theorem lsm_step_changes_row_of_nonexercising_itm_path :
    (∃ a b c : ℝ,
      (a + b * LongstaffSchwartzEngine.assetPath lsm2Opt lsmMd 2 lsm2Z 0 1 +
          c * (LongstaffSchwartzEngine.assetPath lsm2Opt lsmMd 2 lsm2Z 0 1 *
            LongstaffSchwartzEngine.assetPath lsm2Opt lsmMd 2 lsm2Z 0 1)
        = Real.exp (-lsmMd.risk_free_rate * LongstaffSchwartzEngine.dtL lsm2Opt 2) *
            LongstaffSchwartzEngine.initialCashFlows lsm2Opt lsmMd 2 lsm2Z 0 2)
      ∧ (a + b * LongstaffSchwartzEngine.assetPath lsm2Opt lsmMd 2 lsm2Z 1 1 +
          c * (LongstaffSchwartzEngine.assetPath lsm2Opt lsmMd 2 lsm2Z 1 1 *
            LongstaffSchwartzEngine.assetPath lsm2Opt lsmMd 2 lsm2Z 1 1)
        = Real.exp (-lsmMd.risk_free_rate * LongstaffSchwartzEngine.dtL lsm2Opt 2) *
            LongstaffSchwartzEngine.initialCashFlows lsm2Opt lsmMd 2 lsm2Z 1 2)
      ∧ (a + b * LongstaffSchwartzEngine.assetPath lsm2Opt lsmMd 2 lsm2Z 2 1 +
          c * (LongstaffSchwartzEngine.assetPath lsm2Opt lsmMd 2 lsm2Z 2 1 *
            LongstaffSchwartzEngine.assetPath lsm2Opt lsmMd 2 lsm2Z 2 1)
        = Real.exp (-lsmMd.risk_free_rate * LongstaffSchwartzEngine.dtL lsm2Opt 2) *
            LongstaffSchwartzEngine.initialCashFlows lsm2Opt lsmMd 2 lsm2Z 2 2)
      ∧ (a + b * LongstaffSchwartzEngine.assetPath lsm2Opt lsmMd 2 lsm2Z 3 1 +
          c * (LongstaffSchwartzEngine.assetPath lsm2Opt lsmMd 2 lsm2Z 3 1 *
            LongstaffSchwartzEngine.assetPath lsm2Opt lsmMd 2 lsm2Z 3 1)
        = Real.exp (-lsmMd.risk_free_rate * LongstaffSchwartzEngine.dtL lsm2Opt 2) *
            LongstaffSchwartzEngine.initialCashFlows lsm2Opt lsmMd 2 lsm2Z 3 2))
    ∧ LongstaffSchwartzEngine.assetPath lsm2Opt lsmMd 2 lsm2Z 0 1 < lsm2Opt.strike_price
    ∧ ¬ (lsm2Opt.payoff (LongstaffSchwartzEngine.assetPath lsm2Opt lsmMd 2 lsm2Z 0 1) >
        Real.exp (-lsmMd.risk_free_rate * LongstaffSchwartzEngine.dtL lsm2Opt 2) *
          LongstaffSchwartzEngine.initialCashFlows lsm2Opt lsmMd 2 lsm2Z 0 2)
    ∧ LongstaffSchwartzEngine.initialCashFlows lsm2Opt lsmMd 2 lsm2Z 0 2 = 19 / 100
    ∧ LongstaffSchwartzEngine.step lsm2Opt lsmMd 4 2 lsm2Z lsm2Fit 1
        (LongstaffSchwartzEngine.initialCashFlows lsm2Opt lsmMd 2 lsm2Z) 0 2 = 0
    ∧ LongstaffSchwartzEngine.step lsm2Opt lsmMd 4 2 lsm2Z lsm2Fit 1
        (LongstaffSchwartzEngine.initialCashFlows lsm2Opt lsmMd 2 lsm2Z) 0 1 = 0 := by
  obtain ⟨a, b, c, hfit⟩ := Lsm2Instance.fit_zero_residual
  refine ⟨⟨a, b, c, hfit 0 (by norm_num), hfit 1 (by norm_num), hfit 2 (by norm_num),
      hfit 3 (by norm_num)⟩,
    ?_, ?_, Lsm2Instance.cash2_0, Lsm2Instance.step2_0_2, Lsm2Instance.step2_0_1⟩
  · rw [Lsm2Instance.path_t1 0]
    norm_num [lsm2X, lsm2Opt]
  · rw [Lsm2Instance.path_t1 0, Lsm2Instance.disc2, Lsm2Instance.cash2_0,
      show OptionC.payoff lsm2Opt (lsm2X 0) = 1 / 10 from by
        norm_num [OptionC.payoff, lsm2Opt, lsm2X]]
    exact Lsm2Instance.nonexercise_0

/-- C5: refuted on the code — after the full backward induction on the same
4-path instance (whose regression data forces the least-squares fit to
predict the targets, first conjunct), path 0's row of the final cash-flow
matrix is identically zero even though that path was in the money at the
decision step `t = 1` (the claim allows an all-zero row only for paths
never in the money at any decision step).  The cause is the `C1` bug:
non-exercising in-the-money rows are zeroed wholesale. -/
theorem lsm_cash_flow_matrix_allzero_row_though_itm :
    (∃ a b c : ℝ, ∀ i, i < 4 →
      a + b * LongstaffSchwartzEngine.assetPath lsm2Opt lsmMd 2 lsm2Z i 1 +
          c * (LongstaffSchwartzEngine.assetPath lsm2Opt lsmMd 2 lsm2Z i 1 *
            LongstaffSchwartzEngine.assetPath lsm2Opt lsmMd 2 lsm2Z i 1)
        = Real.exp (-lsmMd.risk_free_rate * LongstaffSchwartzEngine.dtL lsm2Opt 2) *
            LongstaffSchwartzEngine.initialCashFlows lsm2Opt lsmMd 2 lsm2Z i 2)
    ∧ LongstaffSchwartzEngine.cashFlowsFinal lsm2Opt lsmMd 4 2 lsm2Z lsm2Fit 0 0 = 0
    ∧ LongstaffSchwartzEngine.cashFlowsFinal lsm2Opt lsmMd 4 2 lsm2Z lsm2Fit 0 1 = 0
    ∧ LongstaffSchwartzEngine.cashFlowsFinal lsm2Opt lsmMd 4 2 lsm2Z lsm2Fit 0 2 = 0
    ∧ LongstaffSchwartzEngine.assetPath lsm2Opt lsmMd 2 lsm2Z 0 1 < lsm2Opt.strike_price := by
  refine ⟨Lsm2Instance.fit_zero_residual, ?_, ?_, ?_, ?_⟩
  · rw [Lsm2Instance.final2_eq]
    exact Lsm2Instance.step2_0_0
  · rw [Lsm2Instance.final2_eq]
    exact Lsm2Instance.step2_0_1
  · rw [Lsm2Instance.final2_eq]
    exact Lsm2Instance.step2_0_2
  · rw [Lsm2Instance.path_t1 0]
    norm_num [lsm2X, lsm2Opt]

/-- Python's `int(x)` on a float: truncation toward zero. -/
def pyInt (x : ℝ) : ℤ := if 0 ≤ x then ⌊x⌋ else ⌈x⌉

/-- The `{'price': ..., 'standard_error': ...}` dictionary returned by the
Monte-Carlo engine. -/
structure MCResult where
  price : ℝ
  standard_error : ℝ

/-- `np.std` (population standard deviation, `ddof = 0`). -/
def listStd (l : List ℝ) : ℝ :=
  Real.sqrt (listMean (l.map (fun x => (x - listMean l) ^ 2)))

namespace MonteCarloEngine

/-- `dt = T / time_steps` (`monte_carlo_engine.py`). -/
def dtM (o : OptionC) (time_steps : ℕ) : ℝ := o.expiration_time / time_steps

/-- The simulated asset paths of `monte_carlo_engine.py`:
`asset_paths[:, 0] = S` and
`asset_paths[:, t] = asset_paths[:, t-1] * exp((r - q - 0.5 σ²) dt + σ √dt z[:, t-1])`,
the draw matrix `z` made an explicit argument. -/
def mcPath (o : OptionC) (md : MarketData) (time_steps : ℕ) (z : ℕ → ℕ → ℝ)
    (i : ℕ) : ℕ → ℝ
  | 0 => o.underlying_price
  | t + 1 =>
      mcPath o md time_steps z i t *
        Real.exp
          ((md.risk_free_rate - md.dividend_yield - 0.5 * md.volatility ^ 2) * dtM o time_steps +
            md.volatility * Real.sqrt (dtM o time_steps) * z i t)

/-- `averaging_indices = [int(date / dt) for date in averaging_dates if date <= T]`,
then `list(set(...))` and `.sort()`: the sorted list of the distinct
truncated indices (`Finset.sort` of the image models set-dedup + sort). -/
def averagingIndices (o : OptionC) (dt : ℝ) : List ℤ :=
  (((o.averaging_dates.filter (fun date => decide (date ≤ o.expiration_time))).map
      (fun date => pyInt (date / dt))).toFinset).sort (· ≤ ·)

/-- The per-path payoff: for an Asian contract
(`isinstance(option, AsianOption)`, i.e. exercise style ASIAN), the payoff
of the row-wise mean of the averaging columns; otherwise the payoff of the
terminal column. -/
def mcPayoffs (o : OptionC) (md : MarketData) (time_steps : ℕ) (z : ℕ → ℕ → ℝ) :
    ℕ → ℝ :=
  fun i =>
    if o.exercise_type = ExerciseType.ASIAN then
      o.payoff (listMean ((averagingIndices o (dtM o time_steps)).map
        (fun k => mcPath o md time_steps z i k.toNat)))
    else
      o.payoff (mcPath o md time_steps z i time_steps)

/-- `MonteCarloEngine.calculate`: discounted mean payoff and standard error
(`time_steps = 0` raises `ZeroDivisionError` at `dt = T / time_steps`). -/
def calculate (o : OptionC) (md : MarketData) (num_simulations time_steps : ℕ)
    (z : ℕ → ℕ → ℝ) : Except Unit MCResult :=
  if time_steps = 0 then Except.error ()
  else
    Except.ok
      ⟨Real.exp (-md.risk_free_rate * o.expiration_time) *
          listMean ((List.range num_simulations).map (mcPayoffs o md time_steps z)),
        listStd ((List.range num_simulations).map (mcPayoffs o md time_steps z)) /
          Real.sqrt num_simulations⟩

/-- `np.random.seed(seed)` in `MonteCarloEngine.__init__`: with a non-`None`
seed the global generator state is overwritten by a state derived from the
seed alone; with `None` it is left as it was. -/
def seedInit {S : Type} (seedFn : ℕ → S) (seed : Option ℕ) (g : S) : S :=
  match seed with
  | some s => seedFn s
  | none => g

/-- `calculate` with the global numpy generator state made explicit:
`np.random.standard_normal((N, M))` is a deterministic `draw` on the state,
returning the draw matrix and the advanced state. -/
def calculateRng {S : Type} (draw : S → (ℕ → ℕ → ℝ) × S) (o : OptionC)
    (md : MarketData) (num_simulations time_steps : ℕ) (g : S) :
    Except Unit MCResult × S :=
  (calculate o md num_simulations time_steps (draw g).1, (draw g).2)

end MonteCarloEngine

/-- C8: two pricing calls made with the same (non-`None`) seed and the same
parameters see identical generator states — `np.random.seed` overwrites the
global state with a function of the seed alone, whatever it was before — so
they draw identical matrices, simulate bit-identical path matrices, and
return identical prices.  The numpy generator is abstract here: any state
type `S`, any deterministic `seedFn`/`draw`. -/
theorem mc_same_seed_bit_identical_paths {S : Type} (seedFn : ℕ → S)
    (draw : S → (ℕ → ℕ → ℝ) × S) (s : ℕ) (g g' : S) (o : OptionC)
    (md : MarketData) (num_simulations time_steps : ℕ) :
    (∀ i t,
      MonteCarloEngine.mcPath o md time_steps
          (draw (MonteCarloEngine.seedInit seedFn (some s) g)).1 i t
        = MonteCarloEngine.mcPath o md time_steps
            (draw (MonteCarloEngine.seedInit seedFn (some s) g')).1 i t)
    ∧ MonteCarloEngine.calculateRng draw o md num_simulations time_steps
        (MonteCarloEngine.seedInit seedFn (some s) g)
      = MonteCarloEngine.calculateRng draw o md num_simulations time_steps
          (MonteCarloEngine.seedInit seedFn (some s) g') :=
  ⟨fun _ _ => rfl, rfl⟩

/-- C7: the path simulator initializes column 0 to the current underlying
price and fills each later column by
`S_t = S_{t−1}·exp((r−q−½σ²)Δt + σ√Δt·Z)` with one draw per path per step;
for ASIAN contracts the averaging column indices are each averaging time's
nearest discrete column index at or before it (`int(date/dt)`, i.e. the
greatest index `k` with `k·Δt ≤ date`), kept only for times at or before
expiration (hence index ≤ `time_steps`), de-duplicated and sorted
ascending, and the payoff is the contract's payoff of the row-wise mean of
those columns — while every non-ASIAN contract is paid on the terminal
column. -/
theorem mc_path_recursion_and_asian_averaging (o : OptionC) (md : MarketData)
    (time_steps : ℕ) (z : ℕ → ℕ → ℝ) (hM : time_steps ≠ 0)
    (hT : 0 < o.expiration_time) (hdates : ∀ dte ∈ o.averaging_dates, 0 ≤ dte) :
    (∀ i, MonteCarloEngine.mcPath o md time_steps z i 0 = o.underlying_price)
    ∧ (∀ i t, MonteCarloEngine.mcPath o md time_steps z i (t + 1)
        = MonteCarloEngine.mcPath o md time_steps z i t *
            Real.exp
              ((md.risk_free_rate - md.dividend_yield - 0.5 * md.volatility ^ 2) *
                  MonteCarloEngine.dtM o time_steps +
                md.volatility * Real.sqrt (MonteCarloEngine.dtM o time_steps) * z i t))
    ∧ List.Sorted (· ≤ ·) (MonteCarloEngine.averagingIndices o (MonteCarloEngine.dtM o time_steps))
    ∧ (MonteCarloEngine.averagingIndices o (MonteCarloEngine.dtM o time_steps)).Nodup
    ∧ (∀ k : ℤ,
        k ∈ MonteCarloEngine.averagingIndices o (MonteCarloEngine.dtM o time_steps) ↔
          ∃ dte ∈ o.averaging_dates, dte ≤ o.expiration_time ∧
            pyInt (dte / MonteCarloEngine.dtM o time_steps) = k)
    ∧ (∀ dte ∈ o.averaging_dates, dte ≤ o.expiration_time →
        (pyInt (dte / MonteCarloEngine.dtM o time_steps) : ℝ) * MonteCarloEngine.dtM o time_steps ≤ dte
        ∧ (∀ k : ℤ, (k : ℝ) * MonteCarloEngine.dtM o time_steps ≤ dte →
            k ≤ pyInt (dte / MonteCarloEngine.dtM o time_steps))
        ∧ pyInt (dte / MonteCarloEngine.dtM o time_steps) ≤ (time_steps : ℤ))
    ∧ (o.exercise_type = ExerciseType.ASIAN → ∀ i,
        MonteCarloEngine.mcPayoffs o md time_steps z i
          = o.payoff (listMean
              ((MonteCarloEngine.averagingIndices o (MonteCarloEngine.dtM o time_steps)).map
                (fun k => MonteCarloEngine.mcPath o md time_steps z i k.toNat))))
    ∧ (o.exercise_type ≠ ExerciseType.ASIAN → ∀ i,
        MonteCarloEngine.mcPayoffs o md time_steps z i
          = o.payoff (MonteCarloEngine.mcPath o md time_steps z i time_steps)) := by
  have hMpos : (0 : ℝ) < (time_steps : ℝ) :=
    Nat.cast_pos.mpr (Nat.pos_of_ne_zero hM)
  have hdt : 0 < MonteCarloEngine.dtM o time_steps := div_pos hT hMpos
  refine ⟨fun _ => rfl, fun _ _ => rfl, ?_, ?_, ?_, ?_, ?_, ?_⟩
  · exact Finset.sort_sorted _ _
  · exact Finset.sort_nodup _ _
  · intro k
    simp only [MonteCarloEngine.averagingIndices, Finset.mem_sort, List.mem_toFinset,
      List.mem_map, List.mem_filter, decide_eq_true_eq]
    constructor
    · rintro ⟨dte, ⟨hmem, hle⟩, hk⟩
      exact ⟨dte, hmem, hle, hk⟩
    · rintro ⟨dte, hmem, hle, hk⟩
      exact ⟨dte, ⟨hmem, hle⟩, hk⟩
  · intro dte hmem hle
    have hd0 : 0 ≤ dte := hdates dte hmem
    have hx : 0 ≤ dte / MonteCarloEngine.dtM o time_steps := div_nonneg hd0 hdt.le
    have hpy : pyInt (dte / MonteCarloEngine.dtM o time_steps)
        = ⌊dte / MonteCarloEngine.dtM o time_steps⌋ := if_pos hx
    refine ⟨?_, ?_, ?_⟩
    · rw [hpy]
      calc (⌊dte / MonteCarloEngine.dtM o time_steps⌋ : ℝ) * MonteCarloEngine.dtM o time_steps
          ≤ (dte / MonteCarloEngine.dtM o time_steps) * MonteCarloEngine.dtM o time_steps :=
            mul_le_mul_of_nonneg_right (Int.floor_le _) hdt.le
        _ = dte := div_mul_cancel₀ dte hdt.ne'
    · intro k hk
      rw [hpy]
      exact Int.le_floor.mpr ((le_div_iff hdt).mpr hk)
    · rw [hpy]
      have hub : dte / MonteCarloEngine.dtM o time_steps ≤ (time_steps : ℝ) := by
        rw [div_le_iff hdt]
        have hTM : (time_steps : ℝ) * MonteCarloEngine.dtM o time_steps = o.expiration_time := by
          rw [MonteCarloEngine.dtM]
          field_simp
        rw [hTM]
        exact hle
      calc ⌊dte / MonteCarloEngine.dtM o time_steps⌋ ≤ ⌊(time_steps : ℝ)⌋ :=
            Int.floor_le_floor hub
        _ = (time_steps : ℤ) := Int.floor_natCast time_steps
  · intro hAsian i
    rw [MonteCarloEngine.mcPayoffs, if_pos hAsian]
  · intro hNot i
    rw [MonteCarloEngine.mcPayoffs, if_neg hNot]

/-- Asian contract with averaging dates `1/4` and `1/2`, used as the
concrete input of the path-simulator witness. -/
def mcWitOpt : OptionC := ⟨1, 1, OptionType.CALL, ExerciseType.ASIAN, 100, [], [1 / 4, 1 / 2]⟩

/-- Market snapshot for the path-simulator witness. -/
def mcWitMd : MarketData := ⟨0, 1, 0⟩

/-- Witness for the path-simulator claim at a concrete Asian contract with
4 time steps and zero draws. -/
theorem mc_path_recursion_and_asian_averaging_witness :
    ((4 : ℕ) ≠ 0 ∧ (0 : ℝ) < mcWitOpt.expiration_time
      ∧ (∀ dte ∈ mcWitOpt.averaging_dates, (0 : ℝ) ≤ dte))
    ∧ MonteCarloEngine.mcPath mcWitOpt mcWitMd 4 (fun _ _ => 0) 0 0
        = mcWitOpt.underlying_price
    ∧ List.Sorted (· ≤ ·)
        (MonteCarloEngine.averagingIndices mcWitOpt (MonteCarloEngine.dtM mcWitOpt 4)) := by
  have hdates : ∀ dte ∈ mcWitOpt.averaging_dates, (0 : ℝ) ≤ dte := by
    intro dte hd
    simp only [mcWitOpt, List.mem_cons, List.not_mem_nil, or_false] at hd
    rcases hd with h | h <;> rw [h] <;> norm_num
  have hT : (0 : ℝ) < mcWitOpt.expiration_time := by norm_num [mcWitOpt]
  have h := mc_path_recursion_and_asian_averaging mcWitOpt mcWitMd 4 (fun _ _ => 0)
    (by norm_num) hT hdates
  exact ⟨⟨by norm_num, hT, hdates⟩, h.1 0, h.2.2.1⟩

/-- The scalar payoff is nonnegative for every option side. -/
lemma payoff_nonneg (o : OptionC) (s : ℝ) : 0 ≤ o.payoff s := by
  cases h : o.option_type <;> simp [OptionC.payoff, h]

/-- The Asian payoff is nonnegative for every option side. -/
lemma payoffAvg_nonneg (o : OptionC) (l : List ℝ) : 0 ≤ o.payoffAvg l := by
  cases h : o.option_type <;> simp [OptionC.payoffAvg, h]

namespace BinomialEngine

/-- With `p ∈ [0, 1]`, a backward-induction node value computed from a
nonnegative value array is nonnegative (the discount factor is a positive
exponential, and each exercise-style resolution preserves nonnegativity). -/
lemma nodeVal_nonneg (o : OptionC) (md : MarketData) (steps j i : ℕ)
    (hp0 : 0 ≤ p o md steps) (hp1 : p o md steps ≤ 1) (V : ℕ → ℝ)
    (hV : ∀ m, 0 ≤ V m) : 0 ≤ nodeVal o md steps j i V := by
  have hc : 0 ≤ Real.exp (-md.risk_free_rate * dt o steps) *
      (p o md steps * V i + (1 - p o md steps) * V (i + 1)) :=
    mul_nonneg (Real.exp_pos _).le
      (add_nonneg (mul_nonneg hp0 (hV i)) (mul_nonneg (by linarith) (hV (i + 1))))
  rw [nodeVal]
  cases h : o.exercise_type with
  | EUROPEAN => exact hc
  | AMERICAN => exact le_trans hc (le_max_right _ _)
  | BERMUDAN =>
    split_ifs with hdate
    · exact le_trans hc (le_max_right _ _)
    · exact hc
  | ASIAN => exact hV i

/-- With `p ∈ [0, 1]`, every cell of the value array is nonnegative at every
stage of the backward induction. -/
lemma backAux_nonneg (o : OptionC) (md : MarketData) (steps : ℕ)
    (hp0 : 0 ≤ p o md steps) (hp1 : p o md steps ≤ 1) :
    ∀ n i, 0 ≤ backAux o md steps n i := by
  intro n
  induction n with
  | zero => intro i; exact payoff_nonneg o _
  | succ n ih =>
    intro i
    show 0 ≤ innerLoop o md steps (steps - (n + 1)) (steps - (n + 1) + 1)
      (backAux o md steps n) i
    rw [innerLoop_apply]
    split_ifs with hi
    · exact nodeVal_nonneg o md steps _ i hp0 hp1 _ ih
    · exact ih i

end BinomialEngine

/-- C10: every payoff (`Option.payoff` on a scalar, `AsianOption.payoff` on
a price list) is nonnegative for both option sides; consequently, whenever
the risk-neutral probability `p` lies in `[0, 1]`, every node value
produced during the lattice backward induction — every cell of the value
array at every stage — and therefore the returned price of
`BinomialEngine.calculate` is nonnegative. -/
theorem payoffs_and_lattice_price_nonneg (o : OptionC) (md : MarketData) (steps : ℕ)
    (hp0 : 0 ≤ BinomialEngine.p o md steps) (hp1 : BinomialEngine.p o md steps ≤ 1) :
    (∀ o' : OptionC, ∀ s : ℝ, 0 ≤ o'.payoff s)
    ∧ (∀ o' : OptionC, ∀ l : List ℝ, 0 ≤ o'.payoffAvg l)
    ∧ (∀ n i, 0 ≤ BinomialEngine.backAux o md steps n i)
    ∧ (∀ res, BinomialEngine.calculate o md steps = Except.ok res → 0 ≤ res.price) := by
  refine ⟨payoff_nonneg, payoffAvg_nonneg,
    BinomialEngine.backAux_nonneg o md steps hp0 hp1, ?_⟩
  intro res hres
  by_cases hs : steps = 0
  · rw [BinomialEngine.calculate, if_pos hs] at hres
    cases hres
  · rw [BinomialEngine.calculate, if_neg hs] at hres
    cases hres
    exact BinomialEngine.backAux_nonneg o md steps hp0 hp1 steps 0

/-- At-the-money one-step call used as the concrete lattice witness input
(`K = S = T = σ = 1`, `r = q = 0`), for which `p = (1 − e⁻¹)/(e − e⁻¹) ∈ [0, 1]`. -/
def latticeWitOpt : OptionC := ⟨1, 1, OptionType.CALL, ExerciseType.AMERICAN, 1, [], []⟩

/-- Market snapshot for the lattice witnesses: `r = 0`, `σ = 1`, `q = 0`. -/
def latticeWitMd : MarketData := ⟨0, 1, 0⟩

namespace LatticeWit

lemma wit_dt : BinomialEngine.dt latticeWitOpt 1 = 1 := by
  norm_num [BinomialEngine.dt, latticeWitOpt]

lemma wit_u : BinomialEngine.u latticeWitOpt latticeWitMd 1 = Real.exp 1 := by
  rw [BinomialEngine.u, wit_dt]
  norm_num [latticeWitMd, Real.sqrt_one]

lemma wit_d : BinomialEngine.d latticeWitOpt latticeWitMd 1 = (Real.exp 1)⁻¹ := by
  rw [BinomialEngine.d, wit_u, one_div]

lemma wit_p : BinomialEngine.p latticeWitOpt latticeWitMd 1
    = (1 - (Real.exp 1)⁻¹) / (Real.exp 1 - (Real.exp 1)⁻¹) := by
  rw [BinomialEngine.p, wit_u, wit_d, wit_dt]
  norm_num [latticeWitMd, Real.exp_zero]

lemma wit_exp_gt_one : (1 : ℝ) < Real.exp 1 := by
  have h := Real.add_one_le_exp (1 : ℝ)
  linarith

lemma wit_p_nonneg : 0 ≤ BinomialEngine.p latticeWitOpt latticeWitMd 1 := by
  rw [wit_p]
  have hE := wit_exp_gt_one
  have hEpos := Real.exp_pos 1
  have hinv : (Real.exp 1)⁻¹ ≤ 1 := by
    rw [inv_le_one_iff₀]
    right
    exact hE.le
  have hinv2 : (Real.exp 1)⁻¹ < Real.exp 1 := by
    calc (Real.exp 1)⁻¹ ≤ 1 := hinv
      _ < Real.exp 1 := hE
  apply div_nonneg <;> linarith

lemma wit_p_le_one : BinomialEngine.p latticeWitOpt latticeWitMd 1 ≤ 1 := by
  rw [wit_p]
  have hE := wit_exp_gt_one
  have hEpos := Real.exp_pos 1
  have hinv : (Real.exp 1)⁻¹ ≤ 1 := by
    rw [inv_le_one_iff₀]
    right
    exact hE.le
  rw [div_le_one (by linarith)]
  linarith

end LatticeWit

/-- Witness for the nonnegativity claim at the concrete one-step call. -/
theorem payoffs_and_lattice_price_nonneg_witness :
    (0 ≤ BinomialEngine.p latticeWitOpt latticeWitMd 1
      ∧ BinomialEngine.p latticeWitOpt latticeWitMd 1 ≤ 1)
    ∧ 0 ≤ BinomialEngine.backAux latticeWitOpt latticeWitMd 1 1 0 :=
  ⟨⟨LatticeWit.wit_p_nonneg, LatticeWit.wit_p_le_one⟩,
    (payoffs_and_lattice_price_nonneg latticeWitOpt latticeWitMd 1
      LatticeWit.wit_p_nonneg LatticeWit.wit_p_le_one).2.2.1 1 0⟩

namespace SpecLattice

lemma value_succ_eur (o : OptionC) (md : MarketData) (steps n i : ℕ)
    (h : o.exercise_type = ExerciseType.EUROPEAN) :
    value o md steps (n + 1) i =
      Real.exp (-md.risk_free_rate * dtS o steps) *
        (rnProb o md steps * value o md steps n i +
          (1 - rnProb o md steps) * value o md steps n (i + 1)) := by
  simp only [value, h]

lemma value_succ_am (o : OptionC) (md : MarketData) (steps n i : ℕ)
    (h : o.exercise_type = ExerciseType.AMERICAN) :
    value o md steps (n + 1) i =
      max (o.payoff (nodePriceS o md steps (steps - (n + 1)) i))
        (Real.exp (-md.risk_free_rate * dtS o steps) *
          (rnProb o md steps * value o md steps n i +
            (1 - rnProb o md steps) * value o md steps n (i + 1))) := by
  simp only [value, h]

/-- The defining identity of the risk-neutral probability: when `u ≠ d`,
`p·u + (1−p)·d = exp((r−q)Δt)`. -/
lemma rnProb_mix (o : OptionC) (md : MarketData) (steps : ℕ)
    (hud : upFactor o md steps ≠ downFactor o md steps) :
    rnProb o md steps * upFactor o md steps +
      (1 - rnProb o md steps) * downFactor o md steps =
      Real.exp ((md.risk_free_rate - md.dividend_yield) * dtS o steps) := by
  have h := div_mul_cancel₀
    (Real.exp ((md.risk_free_rate - md.dividend_yield) * dtS o steps) - downFactor o md steps)
    (sub_ne_zero.mpr hud)
  rw [rnProb]
  linear_combination h

/-- Convexity of the call payoff under a `[0, 1]` mixture. -/
lemma max_sub_convex (w a b k : ℝ) (hw0 : 0 ≤ w) (hw1 : w ≤ 1) :
    max (w * a + (1 - w) * b - k) 0 ≤ w * max (a - k) 0 + (1 - w) * max (b - k) 0 := by
  apply max_le
  · have h1 : a - k ≤ max (a - k) 0 := le_max_left _ _
    have h2 : b - k ≤ max (b - k) 0 := le_max_left _ _
    nlinarith
  · exact add_nonneg (mul_nonneg hw0 (le_max_right _ _))
      (mul_nonneg (by linarith) (le_max_right _ _))

lemma nodePriceS_up (o : OptionC) (md : MarketData) (steps j i : ℕ) (hij : i ≤ j) :
    nodePriceS o md steps (j + 1) i = nodePriceS o md steps j i * upFactor o md steps := by
  rw [nodePriceS, nodePriceS, show j + 1 - i = (j - i) + 1 by omega, pow_succ]
  ring

lemma nodePriceS_down (o : OptionC) (md : MarketData) (steps j i : ℕ) :
    nodePriceS o md steps (j + 1) (i + 1) = nodePriceS o md steps j i * downFactor o md steps := by
  rw [nodePriceS, nodePriceS, show j + 1 - (i + 1) = j - i by omega, pow_succ]
  ring

lemma payoff_call (o : OptionC) (x : ℝ) (h : o.option_type = OptionType.CALL) :
    o.payoff x = max (x - o.strike_price) 0 := by
  simp only [OptionC.payoff, h]

/-- With `p ∈ [0, 1]` the European value never exceeds the American value
node by node (same contract otherwise). -/
lemma value_eu_le_am (o : OptionC) (md : MarketData) (steps : ℕ)
    (hAm : o.exercise_type = ExerciseType.AMERICAN)
    (hp0 : 0 ≤ rnProb o md steps) (hp1 : rnProb o md steps ≤ 1) :
    ∀ n i, value { o with exercise_type := ExerciseType.EUROPEAN } md steps n i ≤
      value o md steps n i := by
  have epr : rnProb { o with exercise_type := ExerciseType.EUROPEAN } md steps
      = rnProb o md steps := rfl
  have edt : dtS ({ o with exercise_type := ExerciseType.EUROPEAN } : OptionC) steps
      = dtS o steps := rfl
  intro n
  induction n with
  | zero => intro i; exact le_of_eq rfl
  | succ n ih =>
    intro i
    rw [value_succ_eur { o with exercise_type := ExerciseType.EUROPEAN } md steps n i rfl,
      value_succ_am o md steps n i hAm, epr, edt]
    refine le_trans ?_ (le_max_right _ _)
    have h1 := ih i
    have h2 := ih (i + 1)
    have hq : (0 : ℝ) ≤ 1 - rnProb o md steps := by linarith
    apply mul_le_mul_of_nonneg_left _ (Real.exp_pos _).le
    exact add_le_add (mul_le_mul_of_nonneg_left h1 hp0) (mul_le_mul_of_nonneg_left h2 hq)

end SpecLattice

namespace SpecLattice

/-- For a CALL with zero dividend yield, nonnegative rate, strike and
expiration, `p ∈ [0, 1]` and a non-degenerate lattice (`u ≠ d`): at every
in-range node the European value dominates the exercise value, and the
American value equals the European value (early exercise is never
strictly better). -/
lemma value_am_eq_eu_call (o : OptionC) (md : MarketData) (steps : ℕ)
    (hAm : o.exercise_type = ExerciseType.AMERICAN)
    (hCall : o.option_type = OptionType.CALL)
    (hq : md.dividend_yield = 0) (hr : 0 ≤ md.risk_free_rate)
    (hK : 0 ≤ o.strike_price) (hT : 0 ≤ o.expiration_time)
    (hud : upFactor o md steps ≠ downFactor o md steps)
    (hp0 : 0 ≤ rnProb o md steps) (hp1 : rnProb o md steps ≤ 1) :
    ∀ n, n ≤ steps → ∀ i, i ≤ steps - n →
      o.payoff (nodePriceS o md steps (steps - n) i) ≤
          value { o with exercise_type := ExerciseType.EUROPEAN } md steps n i
        ∧ value o md steps n i =
          value { o with exercise_type := ExerciseType.EUROPEAN } md steps n i := by
  have epr : rnProb { o with exercise_type := ExerciseType.EUROPEAN } md steps
      = rnProb o md steps := rfl
  have edt : dtS ({ o with exercise_type := ExerciseType.EUROPEAN } : OptionC) steps
      = dtS o steps := rfl
  have hdt0 : 0 ≤ dtS o steps := div_nonneg hT (Nat.cast_nonneg steps)
  have hdisc1 : Real.exp (-md.risk_free_rate * dtS o steps) ≤ 1 := by
    rw [Real.exp_le_one_iff]
    have h := mul_nonneg hr hdt0
    linarith
  have hdisc_pos : (0 : ℝ) < Real.exp (-md.risk_free_rate * dtS o steps) := Real.exp_pos _
  have hDA : Real.exp (-md.risk_free_rate * dtS o steps) *
      Real.exp (md.risk_free_rate * dtS o steps) = 1 := by
    rw [← Real.exp_add]
    norm_num
  have hmix := rnProb_mix o md steps hud
  rw [hq, sub_zero] at hmix
  intro n
  induction n with
  | zero =>
    intro _ i _
    exact ⟨le_of_eq rfl, rfl⟩
  | succ n ih =>
    intro hn i hi
    have hsn : steps - n = steps - (n + 1) + 1 := by omega
    have hij : i ≤ steps - (n + 1) := hi
    have IH1 := ih (by omega) i (by omega)
    have IH2 := ih (by omega) (i + 1) (by omega)
    have h1 : max (nodePriceS o md steps (steps - (n + 1)) i * upFactor o md steps
        - o.strike_price) 0
        ≤ value { o with exercise_type := ExerciseType.EUROPEAN } md steps n i := by
      rw [← payoff_call o _ hCall, ← nodePriceS_up o md steps _ i hij, ← hsn]
      exact IH1.1
    have h2 : max (nodePriceS o md steps (steps - (n + 1)) i * downFactor o md steps
        - o.strike_price) 0
        ≤ value { o with exercise_type := ExerciseType.EUROPEAN } md steps n (i + 1) := by
      rw [← payoff_call o _ hCall, ← nodePriceS_down o md steps _ i, ← hsn]
      exact IH2.1
    have hKd : Real.exp (-md.risk_free_rate * dtS o steps) * o.strike_price
        ≤ o.strike_price := mul_le_of_le_one_left hK hdisc1
    have e1 : Real.exp (-md.risk_free_rate * dtS o steps) *
        max (nodePriceS o md steps (steps - (n + 1)) i *
          Real.exp (md.risk_free_rate * dtS o steps) - o.strike_price) 0
        = max (nodePriceS o md steps (steps - (n + 1)) i -
            Real.exp (-md.risk_free_rate * dtS o steps) * o.strike_price) 0 := by
      rw [mul_max_of_nonneg _ _ hdisc_pos.le, mul_zero, mul_sub]
      congr 2
      calc Real.exp (-md.risk_free_rate * dtS o steps) *
          (nodePriceS o md steps (steps - (n + 1)) i * Real.exp (md.risk_free_rate * dtS o steps))
          = nodePriceS o md steps (steps - (n + 1)) i *
            (Real.exp (-md.risk_free_rate * dtS o steps) *
              Real.exp (md.risk_free_rate * dtS o steps)) := by ring
        _ = nodePriceS o md steps (steps - (n + 1)) i := by rw [hDA, mul_one]
    have key : o.payoff (nodePriceS o md steps (steps - (n + 1)) i)
        ≤ Real.exp (-md.risk_free_rate * dtS o steps) *
            (rnProb o md steps *
                value { o with exercise_type := ExerciseType.EUROPEAN } md steps n i +
              (1 - rnProb o md steps) *
                value { o with exercise_type := ExerciseType.EUROPEAN } md steps n (i + 1)) := by
      calc o.payoff (nodePriceS o md steps (steps - (n + 1)) i)
          = max (nodePriceS o md steps (steps - (n + 1)) i - o.strike_price) 0 :=
            payoff_call o _ hCall
        _ ≤ max (nodePriceS o md steps (steps - (n + 1)) i -
              Real.exp (-md.risk_free_rate * dtS o steps) * o.strike_price) 0 :=
            max_le_max (by linarith) le_rfl
        _ = Real.exp (-md.risk_free_rate * dtS o steps) *
              max (nodePriceS o md steps (steps - (n + 1)) i *
                Real.exp (md.risk_free_rate * dtS o steps) - o.strike_price) 0 := e1.symm
        _ = Real.exp (-md.risk_free_rate * dtS o steps) *
              max (rnProb o md steps *
                  (nodePriceS o md steps (steps - (n + 1)) i * upFactor o md steps) +
                (1 - rnProb o md steps) *
                  (nodePriceS o md steps (steps - (n + 1)) i * downFactor o md steps) -
                o.strike_price) 0 := by
            congr 2
            rw [show rnProb o md steps *
                  (nodePriceS o md steps (steps - (n + 1)) i * upFactor o md steps) +
                (1 - rnProb o md steps) *
                  (nodePriceS o md steps (steps - (n + 1)) i * downFactor o md steps)
                = nodePriceS o md steps (steps - (n + 1)) i *
                  (rnProb o md steps * upFactor o md steps +
                    (1 - rnProb o md steps) * downFactor o md steps) from by ring, hmix]
        _ ≤ Real.exp (-md.risk_free_rate * dtS o steps) *
              (rnProb o md steps *
                  max (nodePriceS o md steps (steps - (n + 1)) i * upFactor o md steps -
                    o.strike_price) 0 +
                (1 - rnProb o md steps) *
                  max (nodePriceS o md steps (steps - (n + 1)) i * downFactor o md steps -
                    o.strike_price) 0) :=
            mul_le_mul_of_nonneg_left
              (max_sub_convex (rnProb o md steps) _ _ o.strike_price hp0 hp1) hdisc_pos.le
        _ ≤ Real.exp (-md.risk_free_rate * dtS o steps) *
              (rnProb o md steps *
                  value { o with exercise_type := ExerciseType.EUROPEAN } md steps n i +
                (1 - rnProb o md steps) *
                  value { o with exercise_type := ExerciseType.EUROPEAN } md steps n (i + 1)) := by
            apply mul_le_mul_of_nonneg_left _ hdisc_pos.le
            exact add_le_add (mul_le_mul_of_nonneg_left h1 hp0)
              (mul_le_mul_of_nonneg_left h2 (by linarith))
    constructor
    · rw [value_succ_eur { o with exercise_type := ExerciseType.EUROPEAN } md steps n i rfl,
        epr, edt]
      exact key
    · rw [value_succ_am o md steps n i hAm,
        value_succ_eur { o with exercise_type := ExerciseType.EUROPEAN } md steps n i rfl,
        epr, edt, IH1.2, IH2.2]
      exact max_eq_right key

end SpecLattice

/-- C6 (amended): whenever the risk-neutral probability `p` lies in
`[0, 1]`, the lattice price of an AMERICAN option is ≥ the price of the
otherwise-identical EUROPEAN option; and the two prices are equal for a
CALL when the dividend yield is zero, provided additionally the rate,
strike and expiration are nonnegative and the lattice is non-degenerate
(`u ≠ d`).  (Unconditionally the claim is false: see the counterexample,
where `p > 1` reverses the inequality and a negative rate breaks the call
equality.) -/
theorem american_ge_european_lattice (o : OptionC) (md : MarketData) (steps : ℕ)
    (hAm : o.exercise_type = ExerciseType.AMERICAN)
    (hp0 : 0 ≤ BinomialEngine.p o md steps) (hp1 : BinomialEngine.p o md steps ≤ 1) :
    (∀ rA rE : PriceResult,
      BinomialEngine.calculate o md steps = Except.ok rA →
      BinomialEngine.calculate { o with exercise_type := ExerciseType.EUROPEAN } md steps
        = Except.ok rE →
      rE.price ≤ rA.price)
    ∧ (o.option_type = OptionType.CALL → md.dividend_yield = 0 →
        0 ≤ md.risk_free_rate → 0 ≤ o.strike_price → 0 ≤ o.expiration_time →
        BinomialEngine.u o md steps ≠ BinomialEngine.d o md steps →
        ∀ rA rE : PriceResult,
          BinomialEngine.calculate o md steps = Except.ok rA →
          BinomialEngine.calculate { o with exercise_type := ExerciseType.EUROPEAN } md steps
            = Except.ok rE →
          rA.price = rE.price) := by
  constructor
  · intro rA rE hA hE
    by_cases hs : steps = 0
    · rw [BinomialEngine.calculate, if_pos hs] at hA
      cases hA
    · rw [BinomialEngine.calculate, if_neg hs] at hA hE
      cases hA
      cases hE
      show BinomialEngine.backAux { o with exercise_type := ExerciseType.EUROPEAN } md steps steps 0
        ≤ BinomialEngine.backAux o md steps steps 0
      rw [BinomialEngine.backAux_eq_value o md steps steps le_rfl 0 (by omega),
        BinomialEngine.backAux_eq_value { o with exercise_type := ExerciseType.EUROPEAN }
          md steps steps le_rfl 0 (by omega)]
      exact SpecLattice.value_eu_le_am o md steps hAm hp0 hp1 steps 0
  · intro hCall hq hr hK hT hud rA rE hA hE
    by_cases hs : steps = 0
    · rw [BinomialEngine.calculate, if_pos hs] at hA
      cases hA
    · rw [BinomialEngine.calculate, if_neg hs] at hA hE
      cases hA
      cases hE
      show BinomialEngine.backAux o md steps steps 0
        = BinomialEngine.backAux { o with exercise_type := ExerciseType.EUROPEAN } md steps steps 0
      rw [BinomialEngine.backAux_eq_value o md steps steps le_rfl 0 (by omega),
        BinomialEngine.backAux_eq_value { o with exercise_type := ExerciseType.EUROPEAN }
          md steps steps le_rfl 0 (by omega)]
      exact (SpecLattice.value_am_eq_eu_call o md steps hAm hCall hq hr hK hT hud hp0 hp1
        steps le_rfl 0 (by omega)).2

namespace LatticeWit

lemma wit_u_ne_d :
    BinomialEngine.u latticeWitOpt latticeWitMd 1 ≠ BinomialEngine.d latticeWitOpt latticeWitMd 1 := by
  rw [wit_u, wit_d]
  have hE := wit_exp_gt_one
  have hpos := Real.exp_pos 1
  intro hcon
  have h1 : Real.exp 1 * (Real.exp 1)⁻¹ = 1 := mul_inv_cancel₀ (ne_of_gt hpos)
  rw [← hcon] at h1
  nlinarith

end LatticeWit

/-- Witness for the amended early-exercise claim at the one-step
at-the-money call with `r = q = 0`, `σ = 1`: `p ∈ [0, 1]` holds and both
the inequality and the call equality are realized. -/
theorem american_ge_european_lattice_witness :
    (latticeWitOpt.exercise_type = ExerciseType.AMERICAN
      ∧ 0 ≤ BinomialEngine.p latticeWitOpt latticeWitMd 1
      ∧ BinomialEngine.p latticeWitOpt latticeWitMd 1 ≤ 1
      ∧ BinomialEngine.u latticeWitOpt latticeWitMd 1 ≠ BinomialEngine.d latticeWitOpt latticeWitMd 1)
    ∧ BinomialEngine.backAux { latticeWitOpt with exercise_type := ExerciseType.EUROPEAN }
        latticeWitMd 1 1 0
      ≤ BinomialEngine.backAux latticeWitOpt latticeWitMd 1 1 0
    ∧ BinomialEngine.backAux latticeWitOpt latticeWitMd 1 1 0
      = BinomialEngine.backAux { latticeWitOpt with exercise_type := ExerciseType.EUROPEAN }
          latticeWitMd 1 1 0 := by
  have h := american_ge_european_lattice latticeWitOpt latticeWitMd 1 rfl
    LatticeWit.wit_p_nonneg LatticeWit.wit_p_le_one
  have hA : BinomialEngine.calculate latticeWitOpt latticeWitMd 1
      = Except.ok ⟨BinomialEngine.backAux latticeWitOpt latticeWitMd 1 1 0⟩ := by
    rw [BinomialEngine.calculate, if_neg one_ne_zero]
  have hEu : BinomialEngine.calculate { latticeWitOpt with exercise_type := ExerciseType.EUROPEAN }
        latticeWitMd 1
      = Except.ok ⟨BinomialEngine.backAux { latticeWitOpt with exercise_type := ExerciseType.EUROPEAN }
          latticeWitMd 1 1 0⟩ := by
    rw [BinomialEngine.calculate, if_neg one_ne_zero]
  refine ⟨⟨rfl, LatticeWit.wit_p_nonneg, LatticeWit.wit_p_le_one, LatticeWit.wit_u_ne_d⟩, ?_, ?_⟩
  · exact h.1 ⟨BinomialEngine.backAux latticeWitOpt latticeWitMd 1 1 0⟩
      ⟨BinomialEngine.backAux { latticeWitOpt with exercise_type := ExerciseType.EUROPEAN }
        latticeWitMd 1 1 0⟩ hA hEu
  · exact h.2 rfl rfl le_rfl (by norm_num [latticeWitOpt]) (by norm_num [latticeWitOpt])
      LatticeWit.wit_u_ne_d ⟨BinomialEngine.backAux latticeWitOpt latticeWitMd 1 1 0⟩
      ⟨BinomialEngine.backAux { latticeWitOpt with exercise_type := ExerciseType.EUROPEAN }
        latticeWitMd 1 1 0⟩ hA hEu

namespace SpecLattice

lemma payoff_put (o : OptionC) (x : ℝ) (h : o.option_type = OptionType.PUT) :
    o.payoff x = max (o.strike_price - x) 0 := by
  simp only [OptionC.payoff, h]

end SpecLattice

/-- At-the-money two-step American put with `K = S = 1`, `T = 2`. -/
def cePutAm : OptionC := ⟨1, 2, OptionType.PUT, ExerciseType.AMERICAN, 1, [], []⟩

/-- The otherwise-identical European put. -/
def cePutEu : OptionC := { cePutAm with exercise_type := ExerciseType.EUROPEAN }

/-- High-rate market (`r = 2`, `σ = 1`, `q = 0`): with `Δt = 1` the
risk-neutral probability is `(e² − e⁻¹)/(e − e⁻¹) > 1`. -/
def ceMdHigh : MarketData := ⟨2, 1, 0⟩

/-- One-step in-the-money American call with `K = 1`, `S = 3`, `T = 1`. -/
def ceCallAm : OptionC := ⟨1, 1, OptionType.CALL, ExerciseType.AMERICAN, 3, [], []⟩

/-- The otherwise-identical European call. -/
def ceCallEu : OptionC := { ceCallAm with exercise_type := ExerciseType.EUROPEAN }

/-- Negative-rate market (`r = −1`, `σ = 1`, `q = 0`). -/
def ceMdNeg : MarketData := ⟨-1, 1, 0⟩

namespace C6CE

open SpecLattice

lemma hE1 : (1 : ℝ) < Real.exp 1 := LatticeWit.wit_exp_gt_one

lemma exp_two_eq : Real.exp 2 = Real.exp 1 * Real.exp 1 := by
  rw [← Real.exp_add]
  norm_num

lemma pdt : dtS cePutAm 2 = 1 := by
  norm_num [SpecLattice.dtS, cePutAm]

lemma pu : upFactor cePutAm ceMdHigh 2 = Real.exp 1 := by
  rw [SpecLattice.upFactor, pdt]
  norm_num [ceMdHigh, Real.sqrt_one]

lemma pd : downFactor cePutAm ceMdHigh 2 = (Real.exp 1)⁻¹ := by
  rw [SpecLattice.downFactor, pu, one_div]

lemma pP : rnProb cePutAm ceMdHigh 2
    = (Real.exp 1 * Real.exp 1 - (Real.exp 1)⁻¹) / (Real.exp 1 - (Real.exp 1)⁻¹) := by
  rw [SpecLattice.rnProb, pu, pd, pdt]
  norm_num [ceMdHigh, exp_two_eq]

lemma pEfacts : (0 : ℝ) < (Real.exp 1)⁻¹ ∧ (Real.exp 1)⁻¹ < 1 ∧
    (0 : ℝ) < Real.exp 1 - (Real.exp 1)⁻¹ := by
  have hE := hE1
  have hpos := Real.exp_pos 1
  have hinv : (0 : ℝ) < (Real.exp 1)⁻¹ := inv_pos.mpr hpos
  have hprod : Real.exp 1 * (Real.exp 1)⁻¹ = 1 := mul_inv_cancel₀ (ne_of_gt hpos)
  refine ⟨hinv, ?_, ?_⟩ <;> nlinarith

lemma pP_gt_one : 1 < rnProb cePutAm ceMdHigh 2 := by
  obtain ⟨h1, h2, h3⟩ := pEfacts
  have hE := hE1
  rw [pP, lt_div_iff h3]
  nlinarith

lemma pnp20 : nodePriceS cePutAm ceMdHigh 2 2 0 = Real.exp 1 ^ 2 := by
  rw [SpecLattice.nodePriceS, pu, pd]
  norm_num [cePutAm]

lemma pnp21 : nodePriceS cePutAm ceMdHigh 2 2 1 = 1 := by
  rw [SpecLattice.nodePriceS, pu, pd]
  norm_num [cePutAm]

lemma pnp22 : nodePriceS cePutAm ceMdHigh 2 2 2 = (Real.exp 1)⁻¹ ^ 2 := by
  rw [SpecLattice.nodePriceS, pu, pd]
  norm_num [cePutAm]

lemma pnp10 : nodePriceS cePutAm ceMdHigh 2 1 0 = Real.exp 1 := by
  rw [SpecLattice.nodePriceS, pu, pd]
  norm_num [cePutAm]

lemma pnp11 : nodePriceS cePutAm ceMdHigh 2 1 1 = (Real.exp 1)⁻¹ := by
  rw [SpecLattice.nodePriceS, pu, pd]
  norm_num [cePutAm]

lemma pnp00 : nodePriceS cePutAm ceMdHigh 2 0 0 = 1 := by
  rw [SpecLattice.nodePriceS, pu, pd]
  norm_num [cePutAm]

lemma pv00 : value cePutAm ceMdHigh 2 0 0 = 0 := by
  show cePutAm.payoff (nodePriceS cePutAm ceMdHigh 2 2 0) = 0
  rw [payoff_put cePutAm _ rfl, pnp20, show cePutAm.strike_price = 1 from rfl]
  have hE := hE1
  exact max_eq_right (by nlinarith)

lemma pv01 : value cePutAm ceMdHigh 2 0 1 = 0 := by
  show cePutAm.payoff (nodePriceS cePutAm ceMdHigh 2 2 1) = 0
  rw [payoff_put cePutAm _ rfl, pnp21, show cePutAm.strike_price = 1 from rfl]
  norm_num

lemma pv02 : value cePutAm ceMdHigh 2 0 2 = 1 - (Real.exp 1)⁻¹ ^ 2 := by
  show cePutAm.payoff (nodePriceS cePutAm ceMdHigh 2 2 2) = 1 - (Real.exp 1)⁻¹ ^ 2
  rw [payoff_put cePutAm _ rfl, pnp22, show cePutAm.strike_price = 1 from rfl]
  obtain ⟨h1, h2, _⟩ := pEfacts
  exact max_eq_left (by nlinarith)

lemma pdisc : Real.exp (-ceMdHigh.risk_free_rate * dtS cePutAm 2) = Real.exp (-2) := by
  rw [pdt]
  norm_num [ceMdHigh]

lemma pv10 : value cePutAm ceMdHigh 2 1 0 = 0 := by
  rw [value_succ_am cePutAm ceMdHigh 2 0 0 rfl, pv00, pv01,
    show (2 : ℕ) - (0 + 1) = 1 from rfl, payoff_put cePutAm _ rfl, pnp10,
    show cePutAm.strike_price = 1 from rfl]
  have hE := hE1
  rw [show rnProb cePutAm ceMdHigh 2 * 0 + (1 - rnProb cePutAm ceMdHigh 2) * 0 = 0 from by ring,
    mul_zero, max_eq_right (by nlinarith : (1 : ℝ) - Real.exp 1 ≤ 0)]
  exact max_self 0

lemma pv11 : value cePutAm ceMdHigh 2 1 1 = 1 - (Real.exp 1)⁻¹ := by
  rw [value_succ_am cePutAm ceMdHigh 2 0 1 rfl, pv01, pv02,
    show (2 : ℕ) - (0 + 1) = 1 from rfl, payoff_put cePutAm _ rfl, pnp11,
    show cePutAm.strike_price = 1 from rfl, pdisc]
  obtain ⟨h1, h2, _⟩ := pEfacts
  have hP := pP_gt_one
  have hcont : Real.exp (-2) *
      (rnProb cePutAm ceMdHigh 2 * 0 +
        (1 - rnProb cePutAm ceMdHigh 2) * (1 - (Real.exp 1)⁻¹ ^ 2)) < 0 := by
    apply mul_neg_of_pos_of_neg (Real.exp_pos _)
    have hx : (0 : ℝ) < 1 - (Real.exp 1)⁻¹ ^ 2 := by nlinarith
    nlinarith
  rw [max_eq_left (by nlinarith : (0 : ℝ) ≤ 1 - (Real.exp 1)⁻¹)]
  exact max_eq_left (by nlinarith)

lemma pv20 : value cePutAm ceMdHigh 2 2 0 = 0 := by
  rw [value_succ_am cePutAm ceMdHigh 2 1 0 rfl, pv10, pv11,
    show (2 : ℕ) - (1 + 1) = 0 from rfl, payoff_put cePutAm _ rfl, pnp00,
    show cePutAm.strike_price = 1 from rfl, pdisc]
  obtain ⟨h1, h2, _⟩ := pEfacts
  have hP := pP_gt_one
  have hcont : Real.exp (-2) *
      (rnProb cePutAm ceMdHigh 2 * 0 +
        (1 - rnProb cePutAm ceMdHigh 2) * (1 - (Real.exp 1)⁻¹)) ≤ 0 := by
    apply le_of_lt
    apply mul_neg_of_pos_of_neg (Real.exp_pos _)
    nlinarith
  rw [show (1 : ℝ) - 1 = 0 from by norm_num, max_self 0]
  exact max_eq_left hcont

lemma pvE00 : value cePutEu ceMdHigh 2 0 0 = 0 := pv00

lemma pvE01 : value cePutEu ceMdHigh 2 0 1 = 0 := pv01

lemma pvE02 : value cePutEu ceMdHigh 2 0 2 = 1 - (Real.exp 1)⁻¹ ^ 2 := pv02

lemma pvE10 : value cePutEu ceMdHigh 2 1 0 = 0 := by
  rw [value_succ_eur cePutEu ceMdHigh 2 0 0 rfl, pvE00, pvE01]
  simp

lemma pvE11 : value cePutEu ceMdHigh 2 1 1
    = Real.exp (-2) * ((1 - rnProb cePutAm ceMdHigh 2) * (1 - (Real.exp 1)⁻¹ ^ 2)) := by
  rw [value_succ_eur cePutEu ceMdHigh 2 0 1 rfl, pvE01, pvE02,
    show rnProb cePutEu ceMdHigh 2 = rnProb cePutAm ceMdHigh 2 from rfl,
    show Real.exp (-ceMdHigh.risk_free_rate * dtS cePutEu 2) = Real.exp (-2) from pdisc]
  ring

lemma pvE20_pos : 0 < value cePutEu ceMdHigh 2 2 0 := by
  rw [value_succ_eur cePutEu ceMdHigh 2 1 0 rfl, pvE10, pvE11,
    show rnProb cePutEu ceMdHigh 2 = rnProb cePutAm ceMdHigh 2 from rfl,
    show Real.exp (-ceMdHigh.risk_free_rate * dtS cePutEu 2) = Real.exp (-2) from pdisc]
  obtain ⟨h1, h2, _⟩ := pEfacts
  have hP := pP_gt_one
  have hx : (0 : ℝ) < 1 - (Real.exp 1)⁻¹ ^ 2 := by nlinarith
  have hinner : (1 - rnProb cePutAm ceMdHigh 2) *
      (Real.exp (-2) * ((1 - rnProb cePutAm ceMdHigh 2) * (1 - (Real.exp 1)⁻¹ ^ 2))) > 0 := by
    apply mul_pos_of_neg_of_neg (by linarith)
    apply mul_neg_of_pos_of_neg (Real.exp_pos _)
    nlinarith
  have hexp2 := Real.exp_pos (-2 : ℝ)
  nlinarith

lemma cdt : dtS ceCallAm 1 = 1 := by
  norm_num [SpecLattice.dtS, ceCallAm]

lemma cu : upFactor ceCallAm ceMdNeg 1 = Real.exp 1 := by
  rw [SpecLattice.upFactor, cdt]
  norm_num [ceMdNeg, Real.sqrt_one]

lemma cd : downFactor ceCallAm ceMdNeg 1 = (Real.exp 1)⁻¹ := by
  rw [SpecLattice.downFactor, cu, one_div]

lemma cP : rnProb ceCallAm ceMdNeg 1 = 0 := by
  rw [SpecLattice.rnProb, cu, cd, cdt]
  norm_num [ceMdNeg, Real.exp_neg]

lemma cdisc : Real.exp (-ceMdNeg.risk_free_rate * dtS ceCallAm 1) = Real.exp 1 := by
  rw [cdt]
  norm_num [ceMdNeg]

lemma cnp10 : nodePriceS ceCallAm ceMdNeg 1 1 0 = 3 * Real.exp 1 := by
  rw [SpecLattice.nodePriceS, cu, cd]
  norm_num [ceCallAm]

lemma cnp11 : nodePriceS ceCallAm ceMdNeg 1 1 1 = 3 * (Real.exp 1)⁻¹ := by
  rw [SpecLattice.nodePriceS, cu, cd]
  norm_num [ceCallAm]

lemma cnp00 : nodePriceS ceCallAm ceMdNeg 1 0 0 = 3 := by
  rw [SpecLattice.nodePriceS, cu, cd]
  norm_num [ceCallAm]

lemma cv00 : value ceCallAm ceMdNeg 1 0 0 = 3 * Real.exp 1 - 1 := by
  show ceCallAm.payoff (nodePriceS ceCallAm ceMdNeg 1 1 0) = 3 * Real.exp 1 - 1
  rw [payoff_call ceCallAm _ rfl, cnp10, show ceCallAm.strike_price = 1 from rfl]
  have hE := hE1
  exact max_eq_left (by nlinarith)

lemma cv01 : value ceCallAm ceMdNeg 1 0 1 = 3 * (Real.exp 1)⁻¹ - 1 := by
  show ceCallAm.payoff (nodePriceS ceCallAm ceMdNeg 1 1 1) = 3 * (Real.exp 1)⁻¹ - 1
  rw [payoff_call ceCallAm _ rfl, cnp11, show ceCallAm.strike_price = 1 from rfl]
  have hE3 := ExpBounds.exp_one_lt_three
  have hprod : Real.exp 1 * (Real.exp 1)⁻¹ = 1 := mul_inv_cancel₀ (Real.exp_ne_zero 1)
  have hpos := Real.exp_pos 1
  exact max_eq_left (by nlinarith)

lemma cv10 : value ceCallAm ceMdNeg 1 1 0 = 2 := by
  rw [value_succ_am ceCallAm ceMdNeg 1 0 0 rfl, cv00, cv01,
    show (1 : ℕ) - (0 + 1) = 0 from rfl, payoff_call ceCallAm _ rfl, cnp00,
    show ceCallAm.strike_price = 1 from rfl, cP, cdisc]
  have hE := hE1
  have hprod : Real.exp 1 * (Real.exp 1)⁻¹ = 1 := mul_inv_cancel₀ (Real.exp_ne_zero 1)
  rw [show Real.exp 1 * ((0 : ℝ) * (3 * Real.exp 1 - 1) + (1 - 0) * (3 * (Real.exp 1)⁻¹ - 1))
      = 3 - Real.exp 1 from by linear_combination 3 * hprod]
  rw [show max ((3 : ℝ) - 1) 0 = 2 from by norm_num]
  exact max_eq_left (by nlinarith)

lemma cvE10 : value ceCallEu ceMdNeg 1 1 0 = 3 - Real.exp 1 := by
  rw [value_succ_eur ceCallEu ceMdNeg 1 0 0 rfl,
    show value ceCallEu ceMdNeg 1 0 0 = 3 * Real.exp 1 - 1 from cv00,
    show value ceCallEu ceMdNeg 1 0 1 = 3 * (Real.exp 1)⁻¹ - 1 from cv01,
    show rnProb ceCallEu ceMdNeg 1 = 0 from cP,
    show Real.exp (-ceMdNeg.risk_free_rate * dtS ceCallEu 1) = Real.exp 1 from cdisc]
  have hprod : Real.exp 1 * (Real.exp 1)⁻¹ = 1 := mul_inv_cancel₀ (Real.exp_ne_zero 1)
  linear_combination 3 * hprod

end C6CE

/-- C6: refuted on the code as stated — the comparison is NOT universal in
the market snapshot.  With `K = S = 1`, `T = 2`, `steps = 2`, `σ = 1`,
`q = 0` and the high rate `r = 2` (risk-neutral `p > 1`), the AMERICAN put
prices strictly BELOW the otherwise-identical EUROPEAN put; and with
`K = 1`, `S = 3`, `T = 1`, `σ = 1`, `q = 0` and the negative rate `r = −1`,
the zero-dividend CALL prices differ between AMERICAN (price `2`) and
EUROPEAN (price `3 − e`). -/
theorem american_ge_european_lattice_counterexample :
    (∃ rA rE : PriceResult,
        BinomialEngine.calculate cePutAm ceMdHigh 2 = Except.ok rA
        ∧ BinomialEngine.calculate cePutEu ceMdHigh 2 = Except.ok rE
        ∧ rA.price < rE.price)
    ∧ (ceCallAm.option_type = OptionType.CALL ∧ ceMdNeg.dividend_yield = 0
        ∧ ∃ rA rE : PriceResult,
            BinomialEngine.calculate ceCallAm ceMdNeg 1 = Except.ok rA
            ∧ BinomialEngine.calculate ceCallEu ceMdNeg 1 = Except.ok rE
            ∧ rA.price ≠ rE.price) := by
  constructor
  · refine ⟨⟨BinomialEngine.backAux cePutAm ceMdHigh 2 2 0⟩,
      ⟨BinomialEngine.backAux cePutEu ceMdHigh 2 2 0⟩,
      by rw [BinomialEngine.calculate, if_neg (by norm_num)],
      by rw [BinomialEngine.calculate, if_neg (by norm_num)], ?_⟩
    show BinomialEngine.backAux cePutAm ceMdHigh 2 2 0
      < BinomialEngine.backAux cePutEu ceMdHigh 2 2 0
    rw [BinomialEngine.backAux_eq_value cePutAm ceMdHigh 2 2 le_rfl 0 (by omega),
      BinomialEngine.backAux_eq_value cePutEu ceMdHigh 2 2 le_rfl 0 (by omega),
      C6CE.pv20]
    exact C6CE.pvE20_pos
  · refine ⟨rfl, rfl, ⟨BinomialEngine.backAux ceCallAm ceMdNeg 1 1 0⟩,
      ⟨BinomialEngine.backAux ceCallEu ceMdNeg 1 1 0⟩,
      by rw [BinomialEngine.calculate, if_neg one_ne_zero],
      by rw [BinomialEngine.calculate, if_neg one_ne_zero], ?_⟩
    show BinomialEngine.backAux ceCallAm ceMdNeg 1 1 0
      ≠ BinomialEngine.backAux ceCallEu ceMdNeg 1 1 0
    rw [BinomialEngine.backAux_eq_value ceCallAm ceMdNeg 1 1 le_rfl 0 (by omega),
      BinomialEngine.backAux_eq_value ceCallEu ceMdNeg 1 1 le_rfl 0 (by omega),
      C6CE.cv10, C6CE.cvE10]
    have hE := C6CE.hE1
    intro hcon
    linarith

/-- Witness for the lattice refinement claim at a concrete one-step
contract. -/
theorem binomial_calculate_refines_spec_lattice_witness :
    (1 : ℕ) ≠ 0 ∧
    BinomialEngine.calculate latticeWitOpt latticeWitMd 1
      = Except.ok ⟨SpecLattice.rootPrice latticeWitOpt latticeWitMd 1⟩ :=
  ⟨one_ne_zero,
    binomial_calculate_refines_spec_lattice latticeWitOpt latticeWitMd 1 one_ne_zero⟩
